import Mathlib

/-!
Verification of the pathkit path engine (libpag/pathkit) against its
natural-language specification.

This file contains a shallow embedding of the path data model and of the
operations referred to by the claims, translated from the C++ sources
(`SkPath.cpp`, `SkPathRef.cpp`, `SkStroke.cpp`, `SkStrokeParams.cpp`,
`SkCornerPathEffect.cpp`, `SkPaint.cpp`, and the public headers), followed by
theorems settling each claim.

Scalar model: the engine computes with IEEE-754 single-precision floats. We
model a scalar as an exact rational extended with the IEEE special values NaN
and the two infinities; rounding and overflow of finite arithmetic are not
modelled (finite arithmetic is exact). Comparisons follow IEEE semantics: any
comparison involving NaN is false, and NaN is not equal to itself. The
distinction between +0.0 and -0.0 is not modelled (the embedded code never
branches on the sign of zero). All concrete inputs used in the theorems below
are small dyadic values on which float arithmetic is exact, so the exact model
agrees with the float computation there.

Functions whose C++ source is not under `src/` (only headers, callers, or the
spec describe them) are explicitly marked `Modelled from the spec:` in their
doc comment.
-/

namespace PathKit

/-!
Rational arithmetic helpers. The payload of a finite scalar is `ℚ`; the
library's rational operations are `@[irreducible]`, so evaluation-friendly
equivalents are defined through `mkRat` (each is extensionally the standard
operation on `ℚ`, see the `qAdd_eq` family below). All comparisons go through
`Rat.blt`.
-/

/-- Rational addition through `mkRat` (extensionally `a + b`). -/
def qAdd (a b : ℚ) : ℚ := mkRat (a.num * b.den + b.num * a.den) (a.den * b.den)

/-- Rational multiplication through `mkRat` (extensionally `a * b`). -/
def qMul (a b : ℚ) : ℚ := mkRat (a.num * b.num) (a.den * b.den)

/-- Rational negation through `mkRat` (extensionally `-a`). -/
def qNeg (a : ℚ) : ℚ := mkRat (-a.num) a.den

/-- Rational division through `mkRat` (extensionally `a / b`, with the
convention `a / 0 = 0`). -/
def qDiv (a b : ℚ) : ℚ := mkRat (a.num * Int.sign b.num * b.den) (a.den * b.num.natAbs)

/-- Rational absolute value (extensionally `|a|`). -/
def qAbs (a : ℚ) : ℚ := mkRat a.num.natAbs a.den

/-- Strict rational comparison (`Rat.blt` is `a < b`). -/
def qLt (a b : ℚ) : Bool := Rat.blt a b

/-- Non-strict rational comparison (`¬ b < a`). -/
def qLe (a b : ℚ) : Bool := !Rat.blt b a

/-- Binary minimum of rationals. -/
def qMin (a b : ℚ) : ℚ := if Rat.blt b a then b else a

/-- Binary maximum of rationals. -/
def qMax (a b : ℚ) : ℚ := if Rat.blt a b then b else a

/-- Scalar model: an IEEE-754 float idealized as NaN, a signed infinity
(`inf true` is negative infinity), or an exact rational. -/
inductive FP where
  | nan : FP
  | inf : Bool → FP
  | fin : ℚ → FP
deriving DecidableEq, Repr

/-- True exactly for finite values (`SkScalarIsFinite`). -/
def FP.isFinite : FP → Bool
  | .fin _ => true
  | _ => false

/-- True exactly for NaN (`SkScalarIsNaN`). -/
def FP.isNaN : FP → Bool
  | .nan => true
  | _ => false

/-- IEEE `<`: false whenever either operand is NaN. -/
def FP.lt : FP → FP → Bool
  | .nan, _ => false
  | _, .nan => false
  | .inf s, .inf t => s && !t
  | .inf s, .fin _ => s
  | .fin _, .inf t => !t
  | .fin a, .fin b => qLt a b

/-- IEEE `<=`: false whenever either operand is NaN. -/
def FP.le : FP → FP → Bool
  | .nan, _ => false
  | _, .nan => false
  | .inf s, .inf t => s == t || (s && !t)
  | .inf s, .fin _ => s
  | .fin _, .inf t => !t
  | .fin a, .fin b => qLe a b

/-- IEEE `==`: NaN compares unequal to everything, including itself. -/
def FP.beq : FP → FP → Bool
  | .fin a, .fin b => decide (a = b)
  | .inf s, .inf t => s == t
  | _, _ => false

/-- IEEE negation. -/
def FP.neg : FP → FP
  | .nan => .nan
  | .inf s => .inf (!s)
  | .fin q => .fin (qNeg q)

/-- IEEE addition (finite part exact, no overflow modelled). -/
def FP.add : FP → FP → FP
  | .nan, _ => .nan
  | _, .nan => .nan
  | .inf s, .inf t => if s = t then .inf s else .nan
  | .inf s, .fin _ => .inf s
  | .fin _, .inf t => .inf t
  | .fin a, .fin b => .fin (qAdd a b)

/-- IEEE subtraction. -/
def FP.sub (a b : FP) : FP := a.add b.neg

/-- IEEE multiplication (finite part exact). -/
def FP.mul : FP → FP → FP
  | .nan, _ => .nan
  | _, .nan => .nan
  | .inf s, .inf t => .inf (xor s t)
  | .inf s, .fin q => if q = 0 then .nan else .inf (xor s (qLt q 0))
  | .fin q, .inf t => if q = 0 then .nan else .inf (xor (qLt q 0) t)
  | .fin a, .fin b => .fin (qMul a b)

/-- IEEE division (finite part exact; a single zero is modelled). -/
def FP.div : FP → FP → FP
  | .nan, _ => .nan
  | _, .nan => .nan
  | .inf _, .inf _ => .nan
  | .inf s, .fin q => .inf (xor s (qLt q 0))
  | .fin _, .inf _ => .fin 0
  | .fin a, .fin b =>
      if b = 0 then (if a = 0 then .nan else .inf (qLt a 0)) else .fin (qDiv a b)

/-- The C++ `std::min(a, b)`: returns `b` when `b < a`, else `a`. -/
def FP.stdMin (a b : FP) : FP := if FP.lt b a then b else a

/-- The C++ `std::max(a, b)`: returns `b` when `a < b`, else `a`. -/
def FP.stdMax (a b : FP) : FP := if FP.lt a b then b else a

/-- Translation of `SkScalarSignAsInt`: `x < 0 ? -1 : (x > 0)`. -/
def FP.signAsInt (x : FP) : ℤ :=
  if FP.lt x (.fin 0) then -1 else (if FP.lt (.fin 0) x then 1 else 0)

/-- Translation of `PkScalarHalf(a) = a * 0.5f`. -/
def FP.half (a : FP) : FP := a.mul (.fin (mkRat 1 2))

/-- Translation of `PkScalarAve(a, b) = (a + b) * 0.5f`. -/
def FP.ave (a b : FP) : FP := (a.add b).mul (.fin (mkRat 1 2))

/-- A 2D point of two scalars (`SkPoint`). -/
structure FPoint where
  x : FP
  y : FP
deriving DecidableEq, Repr

/-- Both coordinates finite (`SkPoint::isFinite`). -/
def FPoint.isFinite (p : FPoint) : Bool := p.x.isFinite && p.y.isFinite

/-- IEEE `SkPoint::operator==` (componentwise float equality). -/
def FPoint.beq (p q : FPoint) : Bool := FP.beq p.x q.x && FP.beq p.y q.y

/-- The origin, used as the default value when the C++ code reads
uninitialized or out-of-range storage (never exercised on well-formed paths). -/
def FPoint.zero : FPoint := ⟨.fin 0, .fin 0⟩

/-- An axis-aligned rectangle of four scalars (`SkRect`). -/
structure FRect where
  left : FP
  top : FP
  right : FP
  bottom : FP
deriving DecidableEq, Repr

/-- Shorthand for a rectangle with rational (finite) edges. -/
def FRect.mkQ (l t r b : ℚ) : FRect := ⟨.fin l, .fin t, .fin r, .fin b⟩

/-- Translation of `SkRect::isFinite`: the source checks
`!isNaN(0*l*t*r*b)`, which holds exactly when all four edges are finite. -/
def FRect.isFinite (r : FRect) : Bool :=
  r.left.isFinite && r.top.isFinite && r.right.isFinite && r.bottom.isFinite

/-- Translation of `SkRect::isEmpty`: `!(left < right && top < bottom)`. -/
def FRect.isEmpty (r : FRect) : Bool := !(FP.lt r.left r.right && FP.lt r.top r.bottom)

/-- Translation of `SkRect::isSorted`. -/
def FRect.isSorted (r : FRect) : Bool := FP.le r.left r.right && FP.le r.top r.bottom

/-- Translation of `SkRect::sort` (swap an edge pair when reversed; the source
compares with `>`, i.e. `lt` with the arguments flipped). -/
def FRect.sorted (r : FRect) : FRect :=
  let lr := if FP.lt r.right r.left then (r.right, r.left) else (r.left, r.right)
  let tb := if FP.lt r.bottom r.top then (r.bottom, r.top) else (r.top, r.bottom)
  ⟨lr.1, tb.1, lr.2, tb.2⟩

/-- The rectangle `(0,0,0,0)` (`SkRect::MakeEmpty`). -/
def FRect.zero : FRect := ⟨.fin 0, .fin 0, .fin 0, .fin 0⟩

/-- Translation of `contains_inclusive` from `SkPath.cpp` (used by
`SkPath::contains`): closed on all four edges. -/
def FRect.containsInclusive (r : FRect) (x y : FP) : Bool :=
  FP.le r.left x && FP.le x r.right && FP.le r.top y && FP.le y r.bottom

/-- Translation of `joinNoEmptyChecks` from `SkPath.cpp`: componentwise
`std::min`/`std::max`, ignoring emptiness of either operand. -/
def joinNoEmptyChecks (dst src : FRect) : FRect :=
  ⟨FP.stdMin dst.left src.left, FP.stdMin dst.top src.top,
   FP.stdMax dst.right src.right, FP.stdMax dst.bottom src.bottom⟩

/-- The six path verbs (`SkPath::Verb`). -/
inductive Verb where
  | move
  | line
  | quad
  | conic
  | cubic
  | close
deriving DecidableEq, Repr

/-- Translation of `SkPathPriv::PtsInVerb`, the per-verb point advance; it is
also the table used by `SkPathRef::growForVerb` to size the point append. -/
def Verb.ptsInVerb : Verb → ℕ
  | .move => 1
  | .line => 1
  | .quad => 2
  | .conic => 2
  | .cubic => 3
  | .close => 0

/-- The segment-mask bit contributed by a verb (`SkPath::SegmentMask`:
line = 1, quad = 2, conic = 4, cubic = 8; move and close contribute none). -/
def Verb.maskBit : Verb → ℕ
  | .line => 1
  | .quad => 2
  | .conic => 4
  | .cubic => 8
  | _ => 0

/-- The path storage body (`SkPathRef`): parallel verb, point and conic-weight
sequences plus cached metadata. The generation id and the convexity and
first-direction caches of the owning path are not modelled: no claim observes
them. -/
structure PathRef where
  verbs : List Verb
  pts : List FPoint
  weights : List FP
  segmentMask : ℕ
  boundsIsDirty : Bool
  bounds : FRect
  isFiniteFlag : Bool
  isOvalFlag : Bool
  isRRectFlag : Bool
  rrIsCCW : Bool
  rrStartIdx : ℕ
deriving DecidableEq, Repr

/-- The empty body (`SkPathRef::CreateEmpty` calls `computeBounds`, so the
shared empty body has clean bounds `(0,0,0,0)` and is finite). -/
def PathRef.empty : PathRef :=
  ⟨[], [], [], 0, false, FRect.zero, true, false, false, false, 0⟩

/-- All points in the list are finite. -/
def allPointsFinite (pts : List FPoint) : Bool := pts.all FPoint.isFinite

/-- The rational value of a finite scalar (never applied to specials on the
paths where it is used). -/
def FP.toQ : FP → ℚ
  | .fin q => q
  | _ => 0

/-- Min/max bounds of a nonempty list of finite points. -/
def boundsOfPoints (pts : List FPoint) : FRect :=
  match pts with
  | [] => FRect.zero
  | p :: rest =>
      let f := fun (acc : ℚ × ℚ × ℚ × ℚ) (q : FPoint) =>
        (qMin acc.1 q.x.toQ, qMin acc.2.1 q.y.toQ,
         qMax acc.2.2.1 q.x.toQ, qMax acc.2.2.2 q.y.toQ)
      let r := rest.foldl f (p.x.toQ, p.y.toQ, p.x.toQ, p.y.toQ)
      FRect.mkQ r.1 r.2.1 r.2.2.1 r.2.2.2

/-- Modelled from the spec: `SkPathRef::computeBounds` (its body lives in the
header `SkPathRef.h`, which is not under `src/`). Spec section 4.4: bounds are
`(0,0,0,0)` for empty paths; when all points are finite they are the min/max
of the point array; otherwise the bounds become the empty rect and the
is-finite flag is cleared. -/
def PathRef.ensureBounds (r : PathRef) : PathRef :=
  if r.boundsIsDirty then
    if r.pts.isEmpty then
      { r with boundsIsDirty := false, bounds := FRect.zero, isFiniteFlag := true }
    else if allPointsFinite r.pts then
      { r with boundsIsDirty := false, bounds := boundsOfPoints r.pts, isFiniteFlag := true }
    else
      { r with boundsIsDirty := false, bounds := FRect.zero, isFiniteFlag := false }
  else r

/-- Lazy bounds query (`SkPathRef::getBounds`). -/
def PathRef.getBounds (r : PathRef) : FRect := r.ensureBounds.bounds

/-- Lazy finiteness query (`SkPathRef::isFinite`). -/
def PathRef.isFinite (r : PathRef) : Bool := r.ensureBounds.isFiniteFlag

/-- Translation of `SkPathRef::growForVerb` (SkPathRef.cpp lines 313-353)
fused with the caller's writes of the appended points: appends one verb, the
verb's points, the weight when the verb is a conic, ors the segment-mask bit,
marks bounds dirty and clears the shape hints. The acquisition of the editor
(SkPathRef.cpp lines 19-33) also marks bounds dirty, which is subsumed. -/
def PathRef.growForVerb (r : PathRef) (v : Verb) (newPts : List FPoint) (w : Option FP) :
    PathRef :=
  { r with
    verbs := r.verbs ++ [v]
    pts := r.pts ++ newPts
    weights := r.weights ++ (if v = .conic then w.toList else [])
    segmentMask := r.segmentMask ||| v.maskBit
    boundsIsDirty := true
    isOvalFlag := false
    isRRectFlag := false }

/-- Translation of `SkPathRef::growForRepeatedVerb` specialized to
`kLine_Verb` as used by `SkPath::addPoly`. -/
def PathRef.growForRepeatedLine (r : PathRef) (newPts : List FPoint) : PathRef :=
  { r with
    verbs := r.verbs ++ List.replicate newPts.length .line
    pts := r.pts ++ newPts
    segmentMask := r.segmentMask ||| Verb.maskBit .line
    boundsIsDirty := true
    isOvalFlag := false
    isRRectFlag := false }

/-- Translation of `SkPathRef::growForVerbsInPath` (SkPathRef.cpp lines
248-269) fused with the caller's writes: bulk-appends another body's verb and
weight streams and the caller-transformed points, ors the segment masks, marks
bounds dirty and clears the shape hints. -/
def PathRef.growForVerbsInPath (r src : PathRef) (mappedPts : List FPoint) : PathRef :=
  { r with
    verbs := r.verbs ++ src.verbs
    pts := r.pts ++ mappedPts
    weights := r.weights ++ src.weights
    segmentMask := r.segmentMask ||| src.segmentMask
    boundsIsDirty := true
    isOvalFlag := false
    isRRectFlag := false }

/-- The four fill rules (`SkPathFillType`). -/
inductive FillType where
  | winding
  | evenOdd
  | inverseWinding
  | inverseEvenOdd
deriving DecidableEq, Repr

/-- A path value (`SkPath`): a body plus the non-shared header fields. The
convexity and first-direction caches are not modelled: no claim observes
them. -/
structure Path where
  ref : PathRef
  lastMoveToIndex : ℤ
  fillType : FillType
deriving DecidableEq, Repr

/-- A default-constructed path: the shared empty body and reset fields
(`INITIAL_LASTMOVETOINDEX_VALUE` is `~0 = -1`; fill type winding). -/
def Path.empty : Path := ⟨PathRef.empty, -1, .winding⟩

/-- Translation of `SkPath::isEmpty`: no verbs. -/
def Path.isEmpty (p : Path) : Bool := p.ref.verbs.length = 0

/-- Translation of `SkPath::isFinite`. -/
def Path.isFinite (p : Path) : Bool := p.ref.isFinite

/-- Translation of `SkPath::getBounds`. -/
def Path.getBounds (p : Path) : FRect := p.ref.getBounds

/-- Translation of `SkPath::isInverseFillType`. -/
def Path.isInverseFillType (p : Path) : Bool :=
  p.fillType = .inverseWinding || p.fillType = .inverseEvenOdd

/-- Acquiring an editor without growing (`SkPath::incReserve` with a positive
reserve): marks bounds dirty (SkPathRef.cpp line 32). -/
def Path.markDirtyByEditor (p : Path) : Path :=
  { p with ref := { p.ref with boundsIsDirty := true } }

/-- Translation of `SkPath::incReserve`. -/
def Path.incReserve (p : Path) (inc : ℕ) : Path :=
  if 0 < inc then p.markDirtyByEditor else p

/-- Translation of `SkPath::moveTo` (SkPath.cpp lines 511-520): remembers the
index of the appended point and appends a move verb. -/
def Path.moveTo (p : Path) (x y : FP) : Path :=
  { p with
    lastMoveToIndex := (p.ref.pts.length : ℤ)
    ref := p.ref.growForVerb .move [⟨x, y⟩] none }

/-- Point-argument form of `moveTo`. -/
def Path.moveToPt (p : Path) (q : FPoint) : Path := p.moveTo q.x q.y

/-- Translation of `SkPath::injectMoveToIfNeeded` (SkPath.cpp lines 522-534):
when the last-move index is the negative sentinel, re-issue a move to `(0,0)`
on an empty verb stream, else to the point at the bit-inverted index. -/
def Path.injectMoveToIfNeeded (p : Path) : Path :=
  if p.lastMoveToIndex < 0 then
    if p.ref.verbs.length = 0 then p.moveTo (.fin 0) (.fin 0)
    else
      let pt := p.ref.pts.getD (-p.lastMoveToIndex - 1).toNat FPoint.zero
      p.moveTo pt.x pt.y
  else p

/-- Translation of `SkPath::lineTo`. -/
def Path.lineTo (p : Path) (x y : FP) : Path :=
  let p := p.injectMoveToIfNeeded
  { p with ref := p.ref.growForVerb .line [⟨x, y⟩] none }

/-- Point-argument form of `lineTo`. -/
def Path.lineToPt (p : Path) (q : FPoint) : Path := p.lineTo q.x q.y

/-- Translation of `SkPath::quadTo`. -/
def Path.quadTo (p : Path) (x1 y1 x2 y2 : FP) : Path :=
  let p := p.injectMoveToIfNeeded
  { p with ref := p.ref.growForVerb .quad [⟨x1, y1⟩, ⟨x2, y2⟩] none }

/-- Point-argument form of `quadTo`. -/
def Path.quadToPt (p : Path) (a b : FPoint) : Path := p.quadTo a.x a.y b.x b.y

/-- Translation of `SkPath::conicTo` (SkPath.cpp lines 556-576): `!(w > 0)`
(which also catches NaN) appends a line to `(x2,y2)`; a non-finite `w` appends
two lines; `w == 1` appends a quad; otherwise a conic with weight `w` is
stored. -/
def Path.conicTo (p : Path) (x1 y1 x2 y2 w : FP) : Path :=
  if !(FP.lt (.fin 0) w) then p.lineTo x2 y2
  else if !w.isFinite then (p.lineTo x1 y1).lineTo x2 y2
  else if FP.beq (.fin 1) w then p.quadTo x1 y1 x2 y2
  else
    let p := p.injectMoveToIfNeeded
    { p with ref := p.ref.growForVerb .conic [⟨x1, y1⟩, ⟨x2, y2⟩] (some w) }

/-- Point-argument form of `conicTo`. -/
def Path.conicToPt (p : Path) (a b : FPoint) (w : FP) : Path :=
  p.conicTo a.x a.y b.x b.y w

/-- Translation of `SkPath::cubicTo`. -/
def Path.cubicTo (p : Path) (x1 y1 x2 y2 x3 y3 : FP) : Path :=
  let p := p.injectMoveToIfNeeded
  { p with ref := p.ref.growForVerb .cubic [⟨x1, y1⟩, ⟨x2, y2⟩, ⟨x3, y3⟩] none }

/-- Point-argument form of `cubicTo`. -/
def Path.cubicToPt (p : Path) (a b c : FPoint) : Path :=
  p.cubicTo a.x a.y b.x b.y c.x c.y

/-- Translation of `SkPath::close` (SkPath.cpp lines 591-622): appends a close
verb unless the stream is empty or already ends in close, then bit-inverts a
non-negative last-move index (`x ^= ~x >> 63` maps `x ≥ 0` to `~x = -x-1`). -/
def Path.close (p : Path) : Path :=
  let p1 :=
    if 0 < p.ref.verbs.length then
      match p.ref.verbs.getLast? with
      | some .close => p
      | _ => { p with ref := p.ref.growForVerb .close [] none }
    else p
  { p1 with
    lastMoveToIndex :=
      if 0 ≤ p1.lastMoveToIndex then -p1.lastMoveToIndex - 1 else p1.lastMoveToIndex }

/-- Translation of `SkPath::hasOnlyMoveTos`: no curve-emitting verb present. -/
def Path.hasOnlyMoveTos (p : Path) : Bool :=
  p.ref.verbs.all fun v =>
    match v with
    | .line | .quad | .conic | .cubic => false
    | _ => true

/-- Modelled from the spec: `SkPathRef::setBounds` (header not under `src/`):
stores the rect, clears the dirty flag and refreshes the is-finite flag from
the rect (spec section 4.1, editor operation `setBounds(rect)`). -/
def Path.setBounds (p : Path) (r : FRect) : Path :=
  { p with
    ref := { p.ref with bounds := r, boundsIsDirty := false, isFiniteFlag := r.isFinite } }

/-- State captured by the constructor of `SkAutoPathBoundsUpdate`
(SkPath.cpp lines 79-107). The `fDegenerate` field only feeds the convexity
cache, which is not modelled. -/
structure ApbuState where
  rect : FRect
  hasValidBounds : Bool
  wasEmpty : Bool
deriving DecidableEq, Repr

/-- Translation of the `SkAutoPathBoundsUpdate` constructor: sorts the added
rect, records whether the path had valid (clean, finite) bounds and whether it
was empty, and joins the path's bounds into the rect when valid and
non-empty. The `hasComputedBounds && isFinite` test short-circuits, so the
stored flags are read directly. -/
def apbuBegin (p : Path) (r : FRect) : ApbuState :=
  let r := r.sorted
  let hasValid := !p.ref.boundsIsDirty && p.ref.isFiniteFlag
  let wasEmpty := p.isEmpty
  let rect := if hasValid && !wasEmpty then joinNoEmptyChecks r p.ref.bounds else r
  ⟨rect, hasValid, wasEmpty⟩

/-- Translation of the `SkAutoPathBoundsUpdate` destructor: installs the
accumulated rect as the bounds when the path was empty or had valid bounds,
and the rect is finite. (The `setConvexity` call feeds an unmodelled cache.) -/
def apbuEnd (st : ApbuState) (p : Path) : Path :=
  if (st.wasEmpty || st.hasValidBounds) && st.rect.isFinite then p.setBounds st.rect else p

/-- Path direction (`SkPathDirection`). -/
inductive Dir where
  | cw
  | ccw
deriving DecidableEq, Repr

/-- Modelled from the spec: corner `k` of a rect for `SkPath_RectPointIterator`
(`SkPathMakers.h` is not under `src/`). Spec section 4.7: 0 = top-left,
1 = top-right, 2 = bottom-right, 3 = bottom-left. -/
def rectCorner (r : FRect) : ℕ → FPoint
  | 0 => ⟨r.left, r.top⟩
  | 1 => ⟨r.right, r.top⟩
  | 2 => ⟨r.right, r.bottom⟩
  | _ => ⟨r.left, r.bottom⟩

/-- Modelled from the spec: the `k`-th point yielded by
`SkPath_RectPointIterator(r, dir, startIndex)` (`k = 0` is `current()`,
successive `k` are `next()` calls); clockwise advances through the corners,
counter-clockwise retreats. -/
def rectIterPoint (r : FRect) (dir : Dir) (startIndex k : ℕ) : FPoint :=
  match dir with
  | .cw => rectCorner r ((startIndex + k) % 4)
  | .ccw => rectCorner r ((startIndex + 3 * k) % 4)

/-- Modelled from the spec: oval point `k` for `SkPath_OvalPointIterator`:
the side midpoints, 0 = top, 1 = right, 2 = bottom, 3 = left. -/
def ovalPoint (r : FRect) : ℕ → FPoint
  | 0 => ⟨FP.ave r.left r.right, r.top⟩
  | 1 => ⟨r.right, FP.ave r.top r.bottom⟩
  | 2 => ⟨FP.ave r.left r.right, r.bottom⟩
  | _ => ⟨r.left, FP.ave r.top r.bottom⟩

/-- Modelled from the spec: the `k`-th point yielded by
`SkPath_OvalPointIterator(r, dir, startIndex)`. -/
def ovalIterPoint (r : FRect) (dir : Dir) (startIndex k : ℕ) : FPoint :=
  match dir with
  | .cw => ovalPoint r ((startIndex + k) % 4)
  | .ccw => ovalPoint r ((startIndex + 3 * k) % 4)

/-- Translation of `SkPath::addRect(rect, dir, startIndex)` (SkPath.cpp lines
626-643): move to the start corner, three lines, close, under the automatic
bounds update. (`setFirstDirection` and `SkAutoDisableDirectionCheck` touch
only the unmodelled direction cache.) -/
def Path.addRect (p : Path) (r : FRect) (dir : Dir) (startIndex : ℕ) : Path :=
  let st := apbuBegin p r
  let p := p.incReserve 5
  let p := p.moveToPt (rectIterPoint r dir startIndex 0)
  let p := p.lineToPt (rectIterPoint r dir startIndex 1)
  let p := p.lineToPt (rectIterPoint r dir startIndex 2)
  let p := p.lineToPt (rectIterPoint r dir startIndex 3)
  let p := p.close
  apbuEnd st p

/-- The float value of the constant `PK_ScalarRoot2Over2 = 0.707106781f`:
the IEEE single nearest that literal, `11863283 / 2^24`. -/
def root2Over2 : FP := .fin (mkRat 11863283 16777216)

/-- Modelled from the spec: `SkPathRef::Editor::setIsOval` (header not under
`src/`): stores the oval hint, its direction and start index. Acquiring the
editor first marks bounds dirty (SkPathRef.cpp line 32). -/
def Path.setIsOvalEd (p : Path) (flag ccw : Bool) (start : ℕ) : Path :=
  { p with
    ref := { p.ref with
      boundsIsDirty := true, isOvalFlag := flag, rrIsCCW := ccw, rrStartIdx := start } }

/-- Modelled from the spec: `SkPathRef::Editor::setIsRRect`, as `setIsOval`. -/
def Path.setIsRRectEd (p : Path) (flag ccw : Bool) (start : ℕ) : Path :=
  { p with
    ref := { p.ref with
      boundsIsDirty := true, isRRectFlag := flag, rrIsCCW := ccw, rrStartIdx := start } }

/-- Translation of `SkPath::addOval(oval, dir, startPointIndex)` (SkPath.cpp
lines 769-803): records whether the path held only move verbs, then appends
move + four conics of weight `PK_ScalarRoot2Over2` + close under the automatic
bounds update, and stores the oval hint for that flag, the direction, and
`startPointIndex % 4`. The conic control points come from a rect-corner
iterator seeded at `startPointIndex` (clockwise) or `startPointIndex + 1`. -/
def Path.addOval (p : Path) (oval : FRect) (dir : Dir) (startPointIndex : ℕ) : Path :=
  let isOval := p.hasOnlyMoveTos
  let st := apbuBegin p oval
  let p := p.incReserve 6
  let rectStart := startPointIndex + (if dir = .cw then 0 else 1)
  let p := p.moveToPt (ovalIterPoint oval dir startPointIndex 0)
  let p := p.conicToPt (rectIterPoint oval dir rectStart 1)
                       (ovalIterPoint oval dir startPointIndex 1) root2Over2
  let p := p.conicToPt (rectIterPoint oval dir rectStart 2)
                       (ovalIterPoint oval dir startPointIndex 2) root2Over2
  let p := p.conicToPt (rectIterPoint oval dir rectStart 3)
                       (ovalIterPoint oval dir startPointIndex 3) root2Over2
  let p := p.conicToPt (rectIterPoint oval dir rectStart 4)
                       (ovalIterPoint oval dir startPointIndex 4) root2Over2
  let p := p.close
  let p := p.setIsOvalEd isOval (dir = .ccw) (startPointIndex % 4)
  apbuEnd st p

/-- Translation of `SkPathPriv::IsOval` / `SkPathRef::isOval`: when the oval
hint is set, report the (lazily computed) bounds; the query succeeds exactly
when the hint is set. -/
def Path.isOvalRect (p : Path) : Option FRect :=
  if p.ref.isOvalFlag then some p.ref.getBounds else none

/-- Translation of `SkPath::addPoly` (SkPath.cpp lines 645-667): for a
nonempty point list, a move, then — only when `count > 1` — `count - 1` lines
via `growForRepeatedVerb`, and an optional close with the last-move-index
flip. -/
def Path.addPoly (p : Path) (ptsL : List FPoint) (closed : Bool) : Path :=
  match ptsL with
  | [] => p
  | p0 :: rest =>
    let p := { p with lastMoveToIndex := (p.ref.pts.length : ℤ) }
    let p := { p with ref := p.ref.growForVerb .move [p0] none }
    let p :=
      if rest.isEmpty then p else { p with ref := p.ref.growForRepeatedLine rest }
    if closed then
      let p := { p with ref := p.ref.growForVerb .close [] none }
      { p with
        lastMoveToIndex :=
          if 0 ≤ p.lastMoveToIndex then -p.lastMoveToIndex - 1 else p.lastMoveToIndex }
    else p

/-- A 3x3 matrix (`SkMatrix`). The implementation of `SkMatrix` is not under
`src/`; the fields and the queries below are modelled from the spec
(section 3, Matrix). -/
structure Matrix where
  scaleX : FP
  skewX : FP
  transX : FP
  skewY : FP
  scaleY : FP
  transY : FP
  persp0 : FP
  persp1 : FP
  persp2 : FP
deriving DecidableEq, Repr

/-- Modelled from the spec: perspective test — the bottom row differs from
`(0, 0, 1)` (IEEE comparison). -/
def Matrix.hasPerspective (m : Matrix) : Bool :=
  !(FP.beq m.persp0 (.fin 0) && FP.beq m.persp1 (.fin 0) && FP.beq m.persp2 (.fin 1))

/-- Modelled from the spec: identity test (IEEE comparison of all entries). -/
def Matrix.isIdentity (m : Matrix) : Bool :=
  FP.beq m.scaleX (.fin 1) && FP.beq m.skewX (.fin 0) && FP.beq m.transX (.fin 0) &&
  FP.beq m.skewY (.fin 0) && FP.beq m.scaleY (.fin 1) && FP.beq m.transY (.fin 0) &&
  FP.beq m.persp0 (.fin 0) && FP.beq m.persp1 (.fin 0) && FP.beq m.persp2 (.fin 1)

/-- Modelled from the spec: `rectStaysRect` — a non-perspective matrix maps
axis-aligned rects to axis-aligned rects iff either both skews are zero and
both scales non-zero, or both scales are zero and both skews non-zero. -/
def Matrix.rectStaysRect (m : Matrix) : Bool :=
  !m.hasPerspective &&
  ((FP.beq m.skewX (.fin 0) && FP.beq m.skewY (.fin 0) &&
    !(FP.beq m.scaleX (.fin 0)) && !(FP.beq m.scaleY (.fin 0))) ||
   (FP.beq m.scaleX (.fin 0) && FP.beq m.scaleY (.fin 0) &&
    !(FP.beq m.skewX (.fin 0)) && !(FP.beq m.skewY (.fin 0))))

/-- Modelled from the spec: affine point mapping
`(x, y) ↦ (sX*x + kX*y + tX, kY*x + sY*y + tY)`. -/
def Matrix.mapPointAffine (m : Matrix) (p : FPoint) : FPoint :=
  ⟨((m.scaleX.mul p.x).add (m.skewX.mul p.y)).add m.transX,
   ((m.skewY.mul p.x).add (m.scaleY.mul p.y)).add m.transY⟩

/-- Modelled from the spec: full (possibly perspective) point mapping with the
projective divide. -/
def Matrix.mapPointFull (m : Matrix) (p : FPoint) : FPoint :=
  let d := ((m.persp0.mul p.x).add (m.persp1.mul p.y)).add m.persp2
  let q := m.mapPointAffine p
  ⟨q.x.div d, q.y.div d⟩

/-- Point mapping as selected by `SkMatrixPriv::GetMapPtsProc`: the affine
form for non-perspective matrices, the full form otherwise. -/
def Matrix.mapPoint (m : Matrix) (p : FPoint) : FPoint :=
  if m.hasPerspective then m.mapPointFull p else m.mapPointAffine p

/-- Modelled from the spec: rect mapping under a rect-staying matrix — map two
opposite corners and sort the result. -/
def Matrix.mapRectRS (m : Matrix) (r : FRect) : FRect :=
  let p0 := m.mapPointAffine ⟨r.left, r.top⟩
  let p1 := m.mapPointAffine ⟨r.right, r.bottom⟩
  (⟨p0.x, p0.y, p1.x, p1.y⟩ : FRect).sorted

/-- Translation of `transform_dir_and_start` (SkPathRef.cpp lines 48-99):
recomputes the direction and start index of the oval/round-rect hint under a
(rect-staying) matrix. `antiDiag`, `topNeg` and `sameSign` are the source's
`0b00`/`0b01`/`0b10` constants; note `topNeg` is `0b10 = 2`, not 1. Returns
the new `(isCCW, start)`. -/
def transformDirAndStart (m : Matrix) (isRRect : Bool) (isCCW : Bool) (start : ℕ) :
    Bool × ℕ :=
  let rm := if isRRect then start % 2 else 0
  let inStart := if isRRect then start / 2 else start
  let adts : ℕ × ℕ × ℕ :=
    if !(FP.beq m.scaleX (.fin 0)) then
      if FP.lt (.fin 0) m.scaleX then
        (0, 0, if FP.lt (.fin 0) m.scaleY then 1 else 0)
      else
        (0, 2, if FP.lt (.fin 0) m.scaleY then 0 else 1)
    else
      if FP.lt (.fin 0) m.skewX then
        (1, 0, if FP.lt (.fin 0) m.skewY then 1 else 0)
      else
        (1, 2, if FP.lt (.fin 0) m.skewY then 0 else 1)
  let antiDiag := adts.1
  let topNeg := adts.2.1
  let sameSign := adts.2.2
  if sameSign ≠ antiDiag then
    let s := (inStart + 4 - (topNeg ||| antiDiag)) % 4
    (isCCW, if isRRect then 2 * s + rm else s)
  else
    let s := (6 + (topNeg ||| antiDiag) - inStart) % 4
    (!isCCW, if isRRect then 2 * s + (if rm = 1 then 0 else 1) else s)

/-- Translation of `SkPathRef::CreateTransformedCopy` (SkPathRef.cpp lines
101-176), value-level: identity returns the source body; otherwise the verb
and weight streams are copied, the points mapped elementwise, the bounds
transformed in place when the source bounds are clean, the matrix is
rect-staying and the source has more than one point, and the shape hints kept
(with recomputed direction/start) only when the matrix is rect-staying. -/
def createTransformedCopy (src : PathRef) (m : Matrix) : PathRef :=
  if m.isIdentity then src
  else
    let mappedPts := src.pts.map (m.mapPoint)
    let canXformBounds := !src.boundsIsDirty && m.rectStaysRect && src.pts.length > 1
    let bdf : FRect × Bool × Bool :=
      if canXformBounds then
        if src.isFiniteFlag then
          let mb := m.mapRectRS src.bounds
          if mb.isFinite then (mb, false, true) else (FRect.zero, false, false)
        else (FRect.zero, false, false)
      else (src.bounds, true, src.isFiniteFlag)
    let rs := m.rectStaysRect
    let isOval' := src.isOvalFlag && rs
    let isRRect' := src.isRRectFlag && rs
    let hint : Bool × ℕ :=
      if isOval' || isRRect' then transformDirAndStart m isRRect' src.rrIsCCW src.rrStartIdx
      else (src.rrIsCCW, src.rrStartIdx)
    { verbs := src.verbs
      pts := mappedPts
      weights := src.weights
      segmentMask := src.segmentMask
      bounds := bdf.1
      boundsIsDirty := bdf.2.1
      isFiniteFlag := bdf.2.2
      isOvalFlag := isOval'
      isRRectFlag := isRRect'
      rrIsCCW := hint.1
      rrStartIdx := hint.2 }

/-- An event produced by a path iterator: the verb with its full point tuple
(the first point of a curve is the previous last point) and, for conics, the
weight. -/
inductive IterEvent where
  | move (p0 : FPoint)
  | line (p0 p1 : FPoint)
  | quad (p0 p1 p2 : FPoint)
  | conic (p0 p1 p2 : FPoint) (w : FP)
  | cubic (p0 p1 p2 p3 : FPoint)
  | close
deriving DecidableEq, Repr

/-- State of `SkPath::Iter` (SkPath.cpp lines 1099-1243). -/
structure IterState where
  verbs : List Verb
  pts : List FPoint
  wts : List FP
  lastPt : FPoint
  moveToPt : FPoint
  forceClose : Bool
  needClose : Bool
deriving DecidableEq, Repr

/-- Translation of `SkPath::Iter::setPath` (SkPath.cpp lines 1110-1122). Note
that this iterator does NOT short-circuit on non-finite paths (unlike
`SkPathPriv::Iterate` and `SkPathRef::Iter::setPathRef`). -/
def Path.iterInit (p : Path) (forceClose : Bool) : IterState :=
  ⟨p.ref.verbs, p.ref.pts, p.ref.weights, FPoint.zero, FPoint.zero, forceClose, false⟩

/-- Translation of `SkPath::Iter::autoClose` (SkPath.cpp lines 1152-1171):
when the last point differs from the move point (with NaN coordinates treated
as equal), synthesize the closing line; otherwise report the close. -/
def iterAutoClose (s : IterState) : IterEvent × IterState :=
  if !(FPoint.beq s.lastPt s.moveToPt) then
    if s.lastPt.x.isNaN || s.lastPt.y.isNaN || s.moveToPt.x.isNaN || s.moveToPt.y.isNaN then
      (.close, s)
    else
      (.line s.lastPt s.moveToPt, { s with lastPt := s.moveToPt })
  else
    (.close, s)

/-- Translation of `SkPath::Iter::next` (SkPath.cpp lines 1173-1243). Returns
`none` for `kDone_Verb`. A synthesized close line does not consume the pending
verb (the source decrements `fVerbs`). -/
def iterNext (s : IterState) : Option (IterEvent × IterState) :=
  match s.verbs with
  | [] =>
    if s.needClose then
      let es := iterAutoClose s
      match es.1 with
      | .line a b => some (.line a b, es.2)
      | _ => some (.close, { es.2 with needClose := false })
    else none
  | v :: rest =>
    match v with
    | .move =>
      if s.needClose then
        let es := iterAutoClose s
        match es.1 with
        | .line a b => some (.line a b, es.2)
        | _ => some (.close, { es.2 with needClose := false })
      else if rest.isEmpty then none
      else
        let p0 := s.pts.headD FPoint.zero
        some (.move p0,
          { s with verbs := rest, pts := s.pts.tail, lastPt := p0, moveToPt := p0,
                   needClose := s.forceClose })
    | .line =>
      let p1 := s.pts.headD FPoint.zero
      some (.line s.lastPt p1, { s with verbs := rest, pts := s.pts.tail, lastPt := p1 })
    | .quad =>
      let p1 := s.pts.headD FPoint.zero
      let p2 := s.pts.tail.headD FPoint.zero
      some (.quad s.lastPt p1 p2,
        { s with verbs := rest, pts := s.pts.tail.tail, lastPt := p2 })
    | .conic =>
      let p1 := s.pts.headD FPoint.zero
      let p2 := s.pts.tail.headD FPoint.zero
      let w := s.wts.headD (.fin 0)
      some (.conic s.lastPt p1 p2 w,
        { s with verbs := rest, pts := s.pts.tail.tail, wts := s.wts.tail, lastPt := p2 })
    | .cubic =>
      let p1 := s.pts.headD FPoint.zero
      let p2 := s.pts.tail.headD FPoint.zero
      let p3 := s.pts.tail.tail.headD FPoint.zero
      some (.cubic s.lastPt p1 p2 p3,
        { s with verbs := rest, pts := s.pts.tail.tail.tail, lastPt := p3 })
    | .close =>
      let es := iterAutoClose s
      match es.1 with
      | .line a b => some (.line a b, es.2)
      | _ =>
        some (.close,
          { es.2 with verbs := rest, needClose := false, lastPt := es.2.moveToPt })

/-- Run the iterator to exhaustion with fuel (each stored verb yields at most
three events, so the fuel below is never exhausted on the initial state). -/
def iterEventsFuel : ℕ → IterState → List IterEvent
  | 0, _ => []
  | Nat.succ n, s =>
    match iterNext s with
    | none => []
    | some (e, s') => e :: iterEventsFuel n s'

/-- The full event stream of `SkPath::Iter(path, forceClose)`. -/
def Path.iterEvents (p : Path) (forceClose : Bool) : List IterEvent :=
  iterEventsFuel (3 * p.ref.verbs.length + 3) (p.iterInit forceClose)

/-- Translation of the raw `SkPath::RangeIter` walk: verbs with their point
tuples taken directly from the arrays (the first point of a curve read one
behind the cursor), weights in order. `prev` is the point behind the cursor. -/
def rawEventsLoop : List Verb → List FPoint → List FP → FPoint → List IterEvent
  | [], _, _, _ => []
  | v :: rest, pts, wts, prev =>
    match v with
    | .move =>
      let p0 := pts.headD FPoint.zero
      .move p0 :: rawEventsLoop rest pts.tail wts p0
    | .line =>
      let p1 := pts.headD FPoint.zero
      .line prev p1 :: rawEventsLoop rest pts.tail wts p1
    | .quad =>
      let p1 := pts.headD FPoint.zero
      let p2 := pts.tail.headD FPoint.zero
      .quad prev p1 p2 :: rawEventsLoop rest pts.tail.tail wts p2
    | .conic =>
      let p1 := pts.headD FPoint.zero
      let p2 := pts.tail.headD FPoint.zero
      .conic prev p1 p2 (wts.headD (.fin 0)) :: rawEventsLoop rest pts.tail.tail wts.tail p2
    | .cubic =>
      let p1 := pts.headD FPoint.zero
      let p2 := pts.tail.headD FPoint.zero
      let p3 := pts.tail.tail.headD FPoint.zero
      .cubic prev p1 p2 p3 :: rawEventsLoop rest pts.tail.tail.tail wts p3
    | .close => .close :: rawEventsLoop rest pts wts prev

/-- Translation of `SkPathPriv::Iterate` (SkPathPriv.h lines 73-93): the raw
range walk, short-circuited to no events when the path is not finite. -/
def Path.iterateEvents (p : Path) : List IterEvent :=
  if p.isFinite then rawEventsLoop p.ref.verbs p.ref.pts p.ref.weights FPoint.zero else []

/-- Translation of `SkPath::getLastPt`: the last stored point, if any. -/
def Path.getLastPt (p : Path) : Option FPoint := p.ref.pts.getLast?

/-- The two add-path modes (`SkPath::AddPathMode`). -/
inductive AddPathMode where
  | append
  | extend
deriving DecidableEq, Repr

/-- One step of the per-verb walk of `SkPath::addPath` (SkPath.cpp lines
849-892): `firstVerb` tracks the extend-mode special case for the leading
move. -/
def addPathWalkStep (m : Matrix) (mode : AddPathMode) (acc : Path × Bool) (e : IterEvent) :
    Path × Bool :=
  let p := acc.1
  let firstVerb := acc.2
  let p' :=
    match e with
    | .move p0 =>
      let mapped := m.mapPoint p0
      if firstVerb && mode = .extend && !p.isEmpty then
        let p := p.injectMoveToIfNeeded
        if p.lastMoveToIndex < 0 ||
           (match p.getLastPt with
            | none => true
            | some lastPt => !(FPoint.beq lastPt mapped)) then
          p.lineToPt mapped
        else p
      else p.moveToPt mapped
    | .line _ p1 => p.lineToPt (m.mapPoint p1)
    | .quad _ p1 p2 => p.quadToPt (m.mapPoint p1) (m.mapPoint p2)
    | .conic _ p1 p2 w => p.conicToPt (m.mapPoint p1) (m.mapPoint p2) w
    | .cubic _ p1 p2 p3 => p.cubicToPt (m.mapPoint p1) (m.mapPoint p2) (m.mapPoint p3)
    | .close => p.close
  (p', false)

/-- Translation of `SkPath::addPath(srcPath, matrix, mode)` (SkPath.cpp lines
819-893): empty sources are ignored; append mode without perspective
bulk-appends the body with mapped points and fixes the last-move index;
otherwise the source is re-walked verb by verb through `SkPathPriv::Iterate`. -/
def Path.addPathM (p : Path) (src : Path) (m : Matrix) (mode : AddPathMode) : Path :=
  if src.isEmpty then p
  else if mode = .append && !m.hasPerspective then
    let last' := (p.ref.pts.length : ℤ) + src.lastMoveToIndex
    let ref' := p.ref.growForVerbsInPath src.ref (src.ref.pts.map m.mapPoint)
    let p := { p with ref := ref', lastMoveToIndex := last' }
    if ref'.verbs.getLast? = some Verb.close then
      { p with
        lastMoveToIndex :=
          if 0 ≤ p.lastMoveToIndex then -p.lastMoveToIndex - 1 else p.lastMoveToIndex }
    else p
  else
    (src.iterateEvents.foldl (addPathWalkStep m mode) (p, true)).1

/-- One step of the backwards walk of `SkPath::reverseAddPath` (SkPath.cpp
lines 937-991), recursing over the reversed verb list. `c` is the cursor into
the source point array (counting from the start), `wc` the cursor into the
weights; `needMove`/`needClose` as in the source. -/
def revAddLoop (src : PathRef) :
    List Verb → Path → ℕ → ℕ → Bool → Bool → Path
  | [], p, _, _, _, _ => p
  | v :: rest, p, c, wc, needMove, needClose =>
    let pc : Path × ℕ :=
      if needMove then (p.moveToPt (src.pts.getD (c - 1) FPoint.zero), c - 1) else (p, c)
    let p := pc.1
    let c := pc.2 - v.ptsInVerb
    match v with
    | .move =>
      let p := if needClose then p.close else p
      revAddLoop src rest p (c + 1) wc true false
    | .line =>
      revAddLoop src rest (p.lineToPt (src.pts.getD c FPoint.zero)) c wc false needClose
    | .quad =>
      revAddLoop src rest
        (p.quadToPt (src.pts.getD (c + 1) FPoint.zero) (src.pts.getD c FPoint.zero))
        c wc false needClose
    | .conic =>
      revAddLoop src rest
        (p.conicToPt (src.pts.getD (c + 1) FPoint.zero) (src.pts.getD c FPoint.zero)
          (src.weights.getD (wc - 1) (.fin 0)))
        c (wc - 1) false needClose
    | .cubic =>
      revAddLoop src rest
        (p.cubicToPt (src.pts.getD (c + 2) FPoint.zero) (src.pts.getD (c + 1) FPoint.zero)
          (src.pts.getD c FPoint.zero))
        c wc false needClose
    | .close =>
      revAddLoop src rest p c wc false true

/-- Translation of `SkPath::reverseAddPath`. -/
def Path.reverseAddPath (p : Path) (src : Path) : Path :=
  revAddLoop src.ref src.ref.verbs.reverse p src.ref.pts.length src.ref.weights.length
    true false

/-- Modelled from the spec: `SkChopCubicAtHalf` (`SkGeometry` is not under
`src/`; spec section 4.4 prescribes subdivision at half) — de Casteljau
midpoint subdivision into two cubics. -/
def chopCubicAtHalf (p0 p1 p2 p3 : FPoint) :
    (FPoint × FPoint × FPoint × FPoint) × (FPoint × FPoint × FPoint × FPoint) :=
  let avePt := fun (a b : FPoint) => (⟨FP.ave a.x b.x, FP.ave a.y b.y⟩ : FPoint)
  let ab := avePt p0 p1
  let bc := avePt p1 p2
  let cd := avePt p2 p3
  let abc := avePt ab bc
  let bcd := avePt bc cd
  let abcd := avePt abc bcd
  ((p0, ab, abc, abcd), (abcd, bcd, cd, p3))

/-- Translation of `subdivide_cubic_to` (SkPath.cpp lines 993-1003): at level
`0` emit the cubic, otherwise chop at half and recurse on both halves. -/
def subdivideCubicTo (p : Path) (c : FPoint × FPoint × FPoint × FPoint) :
    ℕ → Path
  | 0 => p.cubicToPt c.2.1 c.2.2.1 c.2.2.2
  | Nat.succ n =>
    let two := chopCubicAtHalf c.1 c.2.1 c.2.2.1 c.2.2.2
    subdivideCubicTo (subdivideCubicTo p two.1 n) two.2 n

/-- One step of the perspective-transform walk of `SkPath::transform`
(SkPath.cpp lines 1026-1051). `tw` stands for `SkConic::TransformW`, whose
implementation (`SkGeometry`) is not under `src/`; the walk is parametric in
it, as no claim depends on the transformed weight's value. -/
def transformWalkStep (tw : FPoint → FPoint → FPoint → FP → FP) (p : Path)
    (e : IterEvent) : Path :=
  match e with
  | .move p0 => p.moveToPt p0
  | .line _ p1 => p.lineToPt p1
  | .quad p0 p1 p2 => p.conicToPt p1 p2 (tw p0 p1 p2 (.fin 1))
  | .conic p0 p1 p2 w => p.conicToPt p1 p2 (tw p0 p1 p2 w)
  | .cubic p0 p1 p2 p3 => subdivideCubicTo p (p0, p1, p2, p3) 2
  | .close => p.close

/-- Translation of `SkPath::transform(matrix)` applied to itself (SkPath.cpp
lines 1005-1094), value-level: identity is a no-op; a perspective matrix
re-walks the path promoting quads to conics and subdividing cubics, then maps
the destination's points in place through an editor (which marks bounds
dirty); a non-perspective matrix delegates to `CreateTransformedCopy`. The
convexity and first-direction cache updates are not modelled. -/
def Path.transformedWith (p : Path) (tw : FPoint → FPoint → FPoint → FP → FP)
    (m : Matrix) : Path :=
  if m.isIdentity then p
  else if m.hasPerspective then
    let t0 : Path := { Path.empty with fillType := p.fillType }
    let t := (p.iterEvents false).foldl (transformWalkStep tw) t0
    { t with
      ref := { t.ref with
        boundsIsDirty := true, pts := t.ref.pts.map m.mapPointFull } }
  else
    { p with ref := createTransformedCopy p.ref m }

/-- Translation of `SkPath::rewind` (SkPath.cpp lines 313-317 and
`SkPathRef::Rewind`, SkPathRef.cpp lines 178-194), value-level: the arrays are
truncated, the mask and hints cleared, bounds marked dirty, and the header
fields reset. -/
def Path.rewind (p : Path) : Path :=
  { ref := { p.ref with
      verbs := [], pts := [], weights := [], segmentMask := 0,
      boundsIsDirty := true, isOvalFlag := false, isRRectFlag := false }
    lastMoveToIndex := -1
    fillType := .winding }

/-- Translation of `SkPath::reset` (SkPath.cpp lines 307-311): installs the
shared empty body and resets the header fields. -/
def Path.reset (_ : Path) : Path := Path.empty

/-- Translation of `SkPath::toggleInverseFillType` (fill type XOR 2). -/
def Path.toggleInverseFillType (p : Path) : Path :=
  { p with fillType :=
      match p.fillType with
      | .winding => .inverseWinding
      | .evenOdd => .inverseEvenOdd
      | .inverseWinding => .winding
      | .inverseEvenOdd => .evenOdd }

/-- Round-rect classification (`SkRRect::Type`). -/
inductive RRectType where
  | empty
  | rect
  | oval
  | simple
  | ninePatch
  | complex
deriving DecidableEq, Repr

/-- A round-rect (`SkRRect`): bounds, the four corner radii (upper-left,
upper-right, lower-right, lower-left) and the classification tag. -/
structure RRect where
  rect : FRect
  radUL : FPoint
  radUR : FPoint
  radLR : FPoint
  radLL : FPoint
  ty : RRectType
deriving DecidableEq, Repr

/-- Well-formedness maintained by the `SkRRect` constructors (`SkRRect.cpp`:
`initializeRect` rejects non-finite rects, radii are checked finite and
clamped): the bounds and radii are finite. -/
def RRect.WF (rr : RRect) : Bool :=
  rr.rect.isFinite && rr.radUL.isFinite && rr.radUR.isFinite &&
  rr.radLR.isFinite && rr.radLL.isFinite

/-- Modelled from the spec: the eight boundary points of a round-rect used by
`SkPath_RRectPointIterator` (`SkPathMakers.h` not under `src/`): arc
endpoints in clockwise order from the top-left arc's end. -/
def rrectPoint (rr : RRect) : ℕ → FPoint
  | 0 => ⟨rr.rect.left.add rr.radUL.x, rr.rect.top⟩
  | 1 => ⟨rr.rect.right.sub rr.radUR.x, rr.rect.top⟩
  | 2 => ⟨rr.rect.right, rr.rect.top.add rr.radUR.y⟩
  | 3 => ⟨rr.rect.right, rr.rect.bottom.sub rr.radLR.y⟩
  | 4 => ⟨rr.rect.right.sub rr.radLR.x, rr.rect.bottom⟩
  | 5 => ⟨rr.rect.left.add rr.radLL.x, rr.rect.bottom⟩
  | 6 => ⟨rr.rect.left, rr.rect.bottom.sub rr.radLL.y⟩
  | _ => ⟨rr.rect.left, rr.rect.top.add rr.radUL.y⟩

/-- Modelled from the spec: the `k`-th point yielded by
`SkPath_RRectPointIterator(rr, dir, startIndex)`. -/
def rrectIterPoint (rr : RRect) (dir : Dir) (startIndex k : ℕ) : FPoint :=
  match dir with
  | .cw => rrectPoint rr ((startIndex + k) % 8)
  | .ccw => rrectPoint rr ((startIndex + 7 * k) % 8)

/-- Translation of `SkPath::addRRect(rrect, dir, startIndex)` (SkPath.cpp
lines 674-724): degenerate round-rects reduce to `addRect` or `addOval`;
otherwise alternating conics (weight `PK_ScalarRoot2Over2`) and lines are
emitted, starting with a conic when the parity of `startIndex` matches the
clockwise direction, and the round-rect hint is stored. -/
def Path.addRRect (p : Path) (rr : RRect) (dir : Dir) (startIndex : ℕ) : Path :=
  let isRRect := p.hasOnlyMoveTos
  let bounds := rr.rect
  if rr.ty = .rect || rr.ty = .empty then p.addRect bounds dir ((startIndex + 1) / 2)
  else if rr.ty = .oval then p.addOval bounds dir (startIndex / 2)
  else
    let st := apbuBegin p bounds
    let startsWithConic := (decide (startIndex % 2 = 1)) == (decide (dir = .cw))
    let p := p.incReserve (if startsWithConic then 9 else 10)
    let rectStart := startIndex / 2 + (if dir = .cw then 0 else 1)
    let p := p.moveToPt (rrectIterPoint rr dir startIndex 0)
    let p :=
      if startsWithConic then
        let p := p.conicToPt (rectIterPoint bounds dir rectStart 1)
                             (rrectIterPoint rr dir startIndex 1) root2Over2
        let p := p.lineToPt (rrectIterPoint rr dir startIndex 2)
        let p := p.conicToPt (rectIterPoint bounds dir rectStart 2)
                             (rrectIterPoint rr dir startIndex 3) root2Over2
        let p := p.lineToPt (rrectIterPoint rr dir startIndex 4)
        let p := p.conicToPt (rectIterPoint bounds dir rectStart 3)
                             (rrectIterPoint rr dir startIndex 5) root2Over2
        let p := p.lineToPt (rrectIterPoint rr dir startIndex 6)
        p.conicToPt (rectIterPoint bounds dir rectStart 4)
                    (rrectIterPoint rr dir startIndex 7) root2Over2
      else
        let p := p.lineToPt (rrectIterPoint rr dir startIndex 1)
        let p := p.conicToPt (rectIterPoint bounds dir rectStart 1)
                             (rrectIterPoint rr dir startIndex 2) root2Over2
        let p := p.lineToPt (rrectIterPoint rr dir startIndex 3)
        let p := p.conicToPt (rectIterPoint bounds dir rectStart 2)
                             (rrectIterPoint rr dir startIndex 4) root2Over2
        let p := p.lineToPt (rrectIterPoint rr dir startIndex 5)
        let p := p.conicToPt (rectIterPoint bounds dir rectStart 3)
                             (rrectIterPoint rr dir startIndex 6) root2Over2
        let p := p.lineToPt (rrectIterPoint rr dir startIndex 7)
        p.conicToPt (rectIterPoint bounds dir rectStart 4)
                    (rrectIterPoint rr dir startIndex 8) root2Over2
    let p := p.close
    let p := p.setIsRRectEd isRRect (dir = .ccw) (startIndex % 8)
    apbuEnd st p

/-- Translation of `between` (SkPath.cpp line 1796): `(a-b)*(c-b) <= 0`. -/
def fpBetween (a b c : FP) : Bool := FP.le ((a.sub b).mul (c.sub b)) (.fin 0)

/-- Translation of `checkOnCurve` (SkPath.cpp lines 1820-1826). -/
def checkOnCurve (x y : FP) (start finish : FPoint) : Bool :=
  if FP.beq start.y finish.y then
    fpBetween start.x x finish.x && !(FP.beq x finish.x)
  else
    FP.beq x start.x && FP.beq y start.y

/-- Float absolute value (`PkScalarAbs`). -/
def FP.abs : FP → FP
  | .nan => .nan
  | .inf _ => .inf false
  | .fin q => .fin (qAbs q)

/-- Translation of `SkScalarNearlyZero` with the default tolerance
`PK_ScalarNearlyZero = 1/4096`. -/
def nearlyZeroFP (v : FP) : Bool := FP.le v.abs (.fin (mkRat 1 4096))

/-- Translation of `SkScalarNearlyEqual` with the default tolerance. -/
def nearlyEqualFP (a b : FP) : Bool := FP.le (a.sub b).abs (.fin (mkRat 1 4096))

/-- Translation of `winding_line` (SkPath.cpp lines 2041-2079): the winding
contribution of a line segment for the horizontal ray through `(x, y)`,
together with the on-curve count increment. -/
def windingLine (p0 p1 : FPoint) (x y : FP) : ℤ × ℕ :=
  let x0 := p0.x
  let y0 := p0.y
  let x1 := p1.x
  let y1 := p1.y
  let dy := y1.sub y0
  let swapped := FP.lt y1 y0
  let yy0 := if swapped then y1 else y0
  let yy1 := if swapped then y0 else y1
  let dir : ℤ := if swapped then -1 else 1
  if FP.lt y yy0 || FP.lt yy1 y then (0, 0)
  else if checkOnCurve x y p0 p1 then (0, 1)
  else if FP.beq y yy1 then (0, 0)
  else
    let cross := ((x1.sub x0).mul (y.sub p0.y)).sub (dy.mul (x.sub x0))
    if FP.beq cross (.fin 0) then
      (0, if !(FP.beq x x1) || !(FP.beq y p1.y) then 1 else 0)
    else if cross.signAsInt = dir then (0, 0)
    else (dir, 0)

/-- The winding/on-curve accumulation loop of `SkPath::contains` (SkPath.cpp
lines 2200-2222) over the force-closed event stream, for paths without curve
events. The quad/conic/cubic winding helpers depend on chopping routines from
`SkGeometry`, which is not under `src/`; a curve event yields `none` (the
claim's rectangle path is line-only). -/
def windingFold (x y : FP) : List IterEvent → Option (ℤ × ℕ)
  | [] => some (0, 0)
  | e :: rest =>
    match e with
    | .move _ => windingFold x y rest
    | .close => windingFold x y rest
    | .line p0 p1 =>
      match windingFold x y rest with
      | none => none
      | some (w, oc) =>
        let d := windingLine p0 p1 x y
        some (d.1 + w, d.2 + oc)
    | _ => none

/-- Translation of `tangent_line` (SkPath.cpp lines 2160-2180). -/
def tangentLine (p0 p1 : FPoint) (x y : FP) : List FPoint :=
  if !(fpBetween p0.y y p1.y) then []
  else if !(fpBetween p0.x x p1.x) then []
  else
    let dx := p1.x.sub p0.x
    let dy := p1.y.sub p0.y
    if !(nearlyEqualFP ((x.sub p0.x).mul dy) (dx.mul (y.sub p0.y))) then []
    else [⟨dx, dy⟩]

/-- Translation of `SkTDArray::removeShuffle`: move the last element into
position `i` and shrink. -/
def listRemoveShuffle (l : List FPoint) (i : ℕ) : List FPoint :=
  match l.getLast? with
  | none => l
  | some lastE => (l.set i lastE).dropLast

/-- One event of the tangent-coincidence pass of `SkPath::contains` (SkPath.cpp
lines 2239-2284), line events only (`none` on a curve event). -/
def tangentStep (x y : FP) (tangents : List FPoint) (e : IterEvent) :
    Option (List FPoint) :=
  match e with
  | .move _ => some tangents
  | .close => some tangents
  | .line p0 p1 =>
    let ts := tangents ++ tangentLine p0 p1 x y
    if tangents.length < ts.length then
      let tangent := ts.getLastD FPoint.zero
      if nearlyZeroFP ((tangent.x.mul tangent.x).add (tangent.y.mul tangent.y)) then
        some ts.dropLast
      else
        match (List.range (ts.length - 1)).find? (fun i =>
          let test := ts.getD i FPoint.zero
          nearlyZeroFP ((test.x.mul tangent.y).sub (test.y.mul tangent.x)) &&
          decide ((tangent.x.mul test.x).signAsInt ≤ 0) &&
          decide ((tangent.y.mul test.y).signAsInt ≤ 0)) with
        | some i => some (listRemoveShuffle ts.dropLast i)
        | none => some ts
    else some ts
  | _ => none

/-- The tangent pass over the whole event stream. -/
def tangentFold (x y : FP) (events : List IterEvent) : Option (List FPoint) :=
  events.foldl
    (fun acc e => match acc with
      | none => none
      | some ts => tangentStep x y ts e)
    (some [])

/-- Translation of `SkPath::contains(x, y)` (SkPath.cpp lines 2186-2285) for
paths whose force-closed walk yields only move/line/close events (`none`
otherwise; see `windingFold`): empty paths and points outside the inclusive
bounds answer with the inverse flag; a non-zero (parity-masked for even-odd)
winding answers inside; otherwise the on-curve count and, for an even
positive count under winding fill, the tangent-coincidence pass decide. -/
def Path.containsLin (p : Path) (x y : FP) : Option Bool :=
  let isInverse := p.isInverseFillType
  if p.isEmpty then some isInverse
  else if !(p.getBounds.containsInclusive x y) then some isInverse
  else
    let events := p.iterEvents true
    match windingFold x y events with
    | none => none
    | some (w0, onCurveCount) =>
      let evenOddFill := p.fillType = .evenOdd || p.fillType = .inverseEvenOdd
      let w := if evenOddFill then (if w0 % 2 = 0 then 0 else 1) else w0
      if w ≠ 0 then some (!isInverse)
      else if onCurveCount ≤ 1 then some (xor (onCurveCount ≠ 0) isInverse)
      else if onCurveCount % 2 = 1 || evenOddFill then
        some (xor (onCurveCount % 2 = 1) isInverse)
      else
        match tangentFold x y events with
        | none => none
        | some ts => some (xor (ts.length ≠ 0) isInverse)

/-- Translation of `SkStroke::strokePath` (SkStroke.cpp lines 75-98),
degenerate-width gate: `AutoTmpPath` resets the destination, then a radius
(half the stroke width) that is not positive returns at once, leaving the
empty destination. The non-degenerate continuation drives `SkPathStroker`,
whose implementation is not under `src/`; it is abstracted as the `rest`
parameter (no claim depends on its output). -/
def strokePathResult (width : FP) (src : Path) (rest : Path → Path) : Path :=
  let dst := Path.empty
  if FP.le (FP.half width) (.fin 0) then dst else rest src

/-- Stroke cap (`SkPaint::Cap`). -/
inductive Cap where
  | butt
  | round
  | square
deriving DecidableEq, Repr

/-- Stroke join (`SkPaint::Join`). -/
inductive Join where
  | miter
  | round
  | bevel
deriving DecidableEq, Repr

/-- A per-segment stroke parameter tuple (`SkStrokeParams`). -/
structure StrokeParams where
  miterLimit : FP
  cap : Cap
  join : Join
deriving DecidableEq, Repr

/-- The default-constructed `SkStrokeParams` (miter limit 4, butt cap, miter
join). -/
def defaultStrokeParams : StrokeParams := ⟨.fin 4, .butt, .miter⟩

/-- Translation of the early gates of `StrokePathWithMultiParams`
(SkStrokeParams.cpp lines 16-30): an empty parameter list returns false
before the destination is touched; otherwise `AutoTmpPath` resets the
destination and a non-positive radius returns false, leaving it empty. The
stroking loop itself is modelled by `multiTraceLoop`; its output geometry
depends on the `SkPathStroker` implementation (not under `src/`) and is
abstracted as `rest`. -/
def strokeMultiResult (width : FP) (params : List StrokeParams) (dstInit : Path)
    (src : Path) (rest : Path → Path) : Path × Bool :=
  if params.isEmpty then (dstInit, false)
  else
    let dst := Path.empty
    if FP.le (FP.half width) (.fin 0) then (dst, false)
    else (rest src, true)

/-- Modelled from the spec: the `SkPathStroker` per-contour state consulted by
the degenerate-close branch of the stroking loops (the stroker implementation
is not under `src/`). `segmentCount` starts at -1, is reset to 0 by `moveTo`
and incremented by each segment; `hasOnlyMoveTo` is `0 == fSegmentCount`
(SkPathStroker.h line 51). `contourEmpty` models `isCurrentContourEmpty`
(SkPathStroker.h lines 70-73): the contour has generated no geometry away
from its start, i.e. every segment point so far coincides with the contour's
first point. -/
structure StrokerProbe where
  segmentCount : ℤ
  contourStart : FPoint
  contourEmpty : Bool
deriving DecidableEq, Repr

/-- Stroker state on `moveTo`. -/
def strokerProbeMove (_ : StrokerProbe) (p : FPoint) : StrokerProbe := ⟨0, p, true⟩

/-- Stroker state on a segment with the given on-curve points. -/
def strokerProbeSeg (st : StrokerProbe) (newPts : List FPoint) : StrokerProbe :=
  ⟨st.segmentCount + 1, st.contourStart,
   st.contourEmpty && newPts.all (fun q => FPoint.beq q st.contourStart)⟩

/-- An element stroked by the multi-parameter loop, tagged with the parameter
cycling index it received (`params[idx % params.length]` is applied). -/
inductive StrokedElem where
  | seg (e : IterEvent) (idx : ℕ)
  | closeJoin (idx : ℕ)
  | zeroLenCap (idx : ℕ)
  | doneCap (idx : ℕ)
deriving DecidableEq, Repr

/-- The parameter index an element received. -/
def StrokedElem.idxOf : StrokedElem → ℕ
  | .seg _ i => i
  | .closeJoin i => i
  | .zeroLenCap i => i
  | .doneCap i => i

/-- Whether an element advanced the cycling index in the source loop. -/
def StrokedElem.advances : StrokedElem → Bool
  | .seg _ _ => true
  | .closeJoin _ => true
  | _ => false

/-- Translation of the stroking loop of `StrokePathWithMultiParams`
(SkStrokeParams.cpp lines 41-115): `segmentIndex` starts at 0 and selects
`params[segmentIndex % params.size()]`; each line/quad/conic/cubic strokes
with the current tuple and advances the index, as does a close that reaches
`stroker.close`. A close under a non-butt current cap whose contour has only
a move strokes a synthesized zero-length line with the current tuple and does
NOT advance; one whose contour is zero-length strokes nothing and does not
advance. `done` finishes with the then-current tuple. -/
def multiTraceLoop (params : List StrokeParams) :
    List IterEvent → ℕ → StrokerProbe → List StrokedElem
  | [], idx, _ => [.doneCap idx]
  | e :: rest, idx, st =>
    match e with
    | .move p0 => multiTraceLoop params rest idx (strokerProbeMove st p0)
    | .line _ p1 =>
      .seg e idx :: multiTraceLoop params rest (idx + 1) (strokerProbeSeg st [p1])
    | .quad _ p1 p2 =>
      .seg e idx :: multiTraceLoop params rest (idx + 1) (strokerProbeSeg st [p1, p2])
    | .conic _ p1 p2 _ =>
      .seg e idx :: multiTraceLoop params rest (idx + 1) (strokerProbeSeg st [p1, p2])
    | .cubic _ p1 p2 p3 =>
      .seg e idx :: multiTraceLoop params rest (idx + 1) (strokerProbeSeg st [p1, p2, p3])
    | .close =>
      let cur := params.getD (idx % params.length) defaultStrokeParams
      if cur.cap ≠ .butt && st.segmentCount = 0 then
        .zeroLenCap idx ::
          multiTraceLoop params rest idx (strokerProbeSeg st [st.contourStart])
      else if cur.cap ≠ .butt && st.contourEmpty then
        multiTraceLoop params rest idx st
      else
        .closeJoin idx :: multiTraceLoop params rest (idx + 1) st

/-- The parameter-assignment trace of `StrokePathWithMultiParams` on a source
path. -/
def Path.multiParamTrace (src : Path) (params : List StrokeParams) : List StrokedElem :=
  multiTraceLoop params (src.iterEvents false) 0 ⟨-1, FPoint.zero, true⟩

/-- The cycling rule exactly as claim C6 states it: the index applied to an
element is the number of preceding non-move segments plus ALL preceding
closes of the event stream. -/
def claimAdvanceCount : List IterEvent → ℕ
  | [] => 0
  | e :: rest =>
    (match e with
     | .move _ => 0
     | _ => 1) + claimAdvanceCount rest

/-- Translation of `SkPaint::getFillPath` (SkPaint.cpp lines 90-122): a
non-finite source resets the destination and returns false; otherwise the
stroke-record stage runs (`SkStrokeRec::applyToPath` is not under `src/` and
is abstracted as `applyRest`) and a non-finite result is also reset. -/
def getFillPath (applyRest : Path → Path × Bool) (src : Path) : Path × Bool :=
  if !src.isFinite then (Path.empty, false)
  else
    let r := applyRest src
    if !r.1.isFinite then (Path.empty, false) else r

/-- Modelled from the spec: the public path-effect entry
`SkPathEffect::filterPath` (its translation unit is not under `src/`). Spec
section 7: non-finite inputs propagate so that downstream fillers detect them
via `isFinite()` and emit no geometry; boundary behavior B3: a filter
operation applied to a NaN path emits empty output. The effect-specific
filtering (for the corner effect, `SkCornerPathEffectImpl::onFilterPath`) is
abstracted as `onFilter`. -/
def effectFilterPath (onFilter : Path → Path) (src : Path) : Path :=
  if !src.isFinite then Path.empty else onFilter src

/-- Translation of the tangent-distance clamp of `BuildCornerCurve`
(SkCornerPathEffect.cpp lines 57-62): the computed distance
`d = r / tan(θ/2)` is clamped to half of each adjacent curve's measured
length — `ProcessMultiCurveContour` (lines 478-501) applies this one clamp to
every adjacent pair, interior or endpoint alike, as does the wrap-around
fillet of a closed contour (lines 465-471). The lengths come from the
arc-length measure (an external collaborator); only the clamp arithmetic is
embedded. -/
def buildCornerClampedDistance (tangentDistance startCurveLength endCurveLength : ℚ) :
    ℚ :=
  let startTangentDistance := min tangentDistance (startCurveLength / 2)
  let endTangentDistance := min tangentDistance (endCurveLength / 2)
  min startTangentDistance endTangentDistance

/-- The per-side limit exactly as claim C4 states it: half the curve's length
for an interior join, the full length for an endpoint curve of an open
contour. -/
def claimSideLimit (len : ℚ) (endpointOfOpenContour : Bool) : ℚ :=
  if endpointOfOpenContour then len else len / 2

/-- The clamp exactly as claim C4 states it: `d` clamped to the minimum of the
per-side limits. -/
def claimClampedDistance (d lenS lenE : ℚ) (sEndpoint eEndpoint : Bool) : ℚ :=
  min d (min (claimSideLimit lenS sEndpoint) (claimSideLimit lenE eEndpoint))

/-- The hint-orientation update exactly as claim C5 states it, with
`topNeg = 1` (not the source's `0b10 = 2`) when the non-zero top entry is
negative, and antidiag/sameSign as the spec defines them. -/
def claimDirAndStart (m : Matrix) (isRRect : Bool) (isCCW : Bool) (start : ℕ) :
    Bool × ℕ :=
  let rm := if isRRect then start % 2 else 0
  let inStart := if isRRect then start / 2 else start
  let antiDiag : ℕ := if FP.beq m.scaleX (.fin 0) then 1 else 0
  let topEntry := if antiDiag = 1 then m.skewX else m.scaleX
  let otherEntry := if antiDiag = 1 then m.skewY else m.scaleY
  let topNeg : ℕ := if FP.lt topEntry (.fin 0) then 1 else 0
  let sameSign : ℕ :=
    if (FP.lt (.fin 0) topEntry && FP.lt (.fin 0) otherEntry) ||
       (FP.lt topEntry (.fin 0) && FP.lt otherEntry (.fin 0)) then 1 else 0
  if sameSign ≠ antiDiag then
    let s := (inStart + 4 - (topNeg ||| antiDiag)) % 4
    (isCCW, if isRRect then 2 * s + rm else s)
  else
    let s := (6 + (topNeg ||| antiDiag) - inStart) % 4
    (!isCCW, if isRRect then 2 * s + (1 - rm) else s)

/-- A path handle in the sharing model: the index of its body plus the
non-shared header fields. -/
structure Handle where
  bodyIdx : ℕ
  lastMoveToIndex : ℤ
  fillType : FillType
deriving DecidableEq, Repr

/-- The default handle (owning the shared empty body at index 0). -/
def defaultHandle : Handle := ⟨0, -1, .winding⟩

/-- The sharing model: a store of reference-counted bodies and the set of
live path handles. Index 0 is the process-wide shared empty body. -/
structure Sys where
  bodies : List PathRef
  handles : List Handle
deriving DecidableEq, Repr

/-- The reference count of body `i`: the number of handles owning it, plus the
process-wide strong reference that `CreateEmpty` retains on the shared empty
body at index 0 (SkPathRef.cpp lines 37-46). -/
def Sys.refCount (s : Sys) (i : ℕ) : ℕ :=
  ((Finset.range s.handles.length).filter
    (fun j => (s.handles.getD j defaultHandle).bodyIdx = i)).card +
  (if i = 0 then 1 else 0)

/-- The mutating operations of claim C9: verb appends, shape appends,
in-place transform, rewind. -/
inductive MutOp where
  | moveTo (x y : FP)
  | lineTo (x y : FP)
  | quadTo (x1 y1 x2 y2 : FP)
  | conicTo (x1 y1 x2 y2 w : FP)
  | cubicTo (x1 y1 x2 y2 x3 y3 : FP)
  | close
  | addRect (r : FRect) (dir : Dir) (start : ℕ)
  | addOval (r : FRect) (dir : Dir) (start : ℕ)
  | addRRect (rr : RRect) (dir : Dir) (start : ℕ)
  | addPoly (pts : List FPoint) (closed : Bool)
  | transform (tw : FPoint → FPoint → FPoint → FP → FP) (m : Matrix)
  | rewind

/-- The value-level effect of a mutating operation on a path. -/
def MutOp.apply : MutOp → Path → Path
  | .moveTo x y, p => p.moveTo x y
  | .lineTo x y, p => p.lineTo x y
  | .quadTo x1 y1 x2 y2, p => p.quadTo x1 y1 x2 y2
  | .conicTo x1 y1 x2 y2 w, p => p.conicTo x1 y1 x2 y2 w
  | .cubicTo x1 y1 x2 y2 x3 y3, p => p.cubicTo x1 y1 x2 y2 x3 y3
  | .close, p => p.close
  | .addRect r dir start, p => p.addRect r dir start
  | .addOval r dir start, p => p.addOval r dir start
  | .addRRect rr dir start, p => p.addRRect rr dir start
  | .addPoly pts closed, p => p.addPoly pts closed
  | .transform tw m, p => p.transformedWith tw m
  | .rewind, p => p.rewind

/-- The path value seen through a handle. -/
def Sys.pathOf (s : Sys) (h : Handle) : Path :=
  ⟨s.bodies.getD h.bodyIdx PathRef.empty, h.lastMoveToIndex, h.fillType⟩

/-- The shared observables of claim C9 seen through handle `l`: verbs, points,
conic weights and segment mask of its body. -/
def Sys.view (s : Sys) (l : ℕ) : List Verb × List FPoint × List FP × ℕ :=
  let b := s.bodies.getD (s.handles.getD l defaultHandle).bodyIdx PathRef.empty
  (b.verbs, b.pts, b.weights, b.segmentMask)

/-- Translation of mutation through `SkPathRef::Editor` (SkPathRef.cpp lines
19-33) and `SkPathRef::Rewind` (lines 178-194): a uniquely owned body is
edited in place; acquiring an editor on a body whose reference count exceeds
one first deep-copies the body and re-seats the owning reference (here: the
edited copy is stored at a fresh index and the handle re-targeted). An
operation that leaves the body untouched may avoid the copy in the source;
the model copies uniformly, which is indistinguishable through the stated
observables. -/
def Sys.mutate (s : Sys) (k : ℕ) (op : MutOp) : Sys :=
  match s.handles.get? k with
  | none => s
  | some h =>
    let p' := op.apply (s.pathOf h)
    if s.refCount h.bodyIdx = 1 then
      { bodies := s.bodies.set h.bodyIdx p'.ref
        handles := s.handles.set k ⟨h.bodyIdx, p'.lastMoveToIndex, p'.fillType⟩ }
    else
      { bodies := s.bodies ++ [p'.ref]
        handles := s.handles.set k ⟨s.bodies.length, p'.lastMoveToIndex, p'.fillType⟩ }

/-- Path values reachable through the public interface: construction, verb
appends, shape appends, addPath/reverseAddPath, transform, rewind, reset
(claim C1). `addRRect` carries the well-formedness that the `SkRRect`
constructors establish; `transform` is parametric in the weight transform
`SkConic::TransformW` (not under `src/`). -/
inductive Reachable : Path → Prop where
  | empty : Reachable Path.empty
  | moveTo {p} (x y : FP) : Reachable p → Reachable (p.moveTo x y)
  | lineTo {p} (x y : FP) : Reachable p → Reachable (p.lineTo x y)
  | quadTo {p} (x1 y1 x2 y2 : FP) : Reachable p → Reachable (p.quadTo x1 y1 x2 y2)
  | conicTo {p} (x1 y1 x2 y2 w : FP) : Reachable p → Reachable (p.conicTo x1 y1 x2 y2 w)
  | cubicTo {p} (x1 y1 x2 y2 x3 y3 : FP) :
      Reachable p → Reachable (p.cubicTo x1 y1 x2 y2 x3 y3)
  | close {p} : Reachable p → Reachable p.close
  | addRect {p} (r : FRect) (d : Dir) (si : ℕ) : Reachable p → Reachable (p.addRect r d si)
  | addOval {p} (r : FRect) (d : Dir) (si : ℕ) : Reachable p → Reachable (p.addOval r d si)
  | addRRect {p} (rr : RRect) (d : Dir) (si : ℕ) :
      rr.WF = true → Reachable p → Reachable (p.addRRect rr d si)
  | addPoly {p} (pts : List FPoint) (closed : Bool) :
      Reachable p → Reachable (p.addPoly pts closed)
  | addPath {p src} (m : Matrix) (mode : AddPathMode) :
      Reachable p → Reachable src → Reachable (p.addPathM src m mode)
  | reverseAddPath {p src} :
      Reachable p → Reachable src → Reachable (p.reverseAddPath src)
  | transform {p} (tw : FPoint → FPoint → FPoint → FP → FP) (m : Matrix) :
      Reachable p → Reachable (p.transformedWith tw m)
  | rewind {p} : Reachable p → Reachable p.rewind
  | reset {p} : Reachable p → Reachable p.reset

/-- The per-verb point advance exactly as claim C1 states it:
Move 1, Line 1, Quad 2, Conic 2, Cubic 3, Close 0. -/
def claimAdvance : Verb → ℕ
  | .move => 1
  | .line => 1
  | .quad => 2
  | .conic => 2
  | .cubic => 3
  | .close => 0

/-- The sum of claim C1's per-verb point advances over a verb stream. -/
def verbAdvanceSum (vs : List Verb) : ℕ := (vs.map claimAdvance).sum

/-- The number of elements of a stroked trace that advanced the cycling
index (non-move segments and non-degenerate closes). -/
def advCount (l : List StrokedElem) : ℕ := (l.filter StrokedElem.advances).length

/-- Coherence of the cached bounds and finiteness flag (claim C3): clean
(non-dirty) bounds with the finite flag set imply that all points are finite
and that the cached bounds rect is finite. -/
def WFB (p : Path) : Prop :=
  p.ref.boundsIsDirty = false → p.ref.isFiniteFlag = true →
    allPointsFinite p.ref.pts = true ∧ p.ref.bounds.isFinite = true

/-- The structural invariants carried through the reachability induction:
the two counting invariants of claim C1, and the cached-bounds coherence
`WFB` used by claim C3. -/
def PathInv (p : Path) : Prop :=
  verbAdvanceSum p.ref.verbs = p.ref.pts.length ∧
  p.ref.verbs.count Verb.conic = p.ref.weights.length ∧ WFB p

/-!
Theorems. First the bridge lemmas identifying the evaluation-friendly
rational operations with the standard ones, then the structural lemmas of the
reachability induction, then the claim theorems.
-/

theorem qAdd_eq (a b : ℚ) : qAdd a b = a + b := (Rat.add_def' a b).symm

theorem qMul_eq (a b : ℚ) : qMul a b = a * b := by
  rw [qMul, Rat.mul_def, Rat.normalize_eq_mkRat]

theorem qNeg_eq (a : ℚ) : qNeg a = -a := by
  rw [qNeg, Rat.neg_def, Rat.mkRat_eq_divInt]

theorem qLt_iff (a b : ℚ) : qLt a b = true ↔ a < b := Iff.rfl

theorem qLe_iff (a b : ℚ) : qLe a b = true ↔ a ≤ b := by
  constructor
  · intro h
    simp only [qLe, Bool.not_eq_true'] at h
    exact h
  · intro h
    simp only [qLe, Bool.not_eq_true']
    exact h

theorem weights_injectMoveToIfNeeded (p : Path) :
    p.injectMoveToIfNeeded.ref.weights = p.ref.weights := by
  unfold Path.injectMoveToIfNeeded
  split
  · split <;> simp [Path.moveTo, PathRef.growForVerb]
  · rfl

theorem weights_lineTo (p : Path) (x y : FP) :
    (p.lineTo x y).ref.weights = p.ref.weights := by
  unfold Path.lineTo
  simp [PathRef.growForVerb, weights_injectMoveToIfNeeded]

theorem weights_quadTo (p : Path) (x1 y1 x2 y2 : FP) :
    (p.quadTo x1 y1 x2 y2).ref.weights = p.ref.weights := by
  unfold Path.quadTo
  simp [PathRef.growForVerb, weights_injectMoveToIfNeeded]

/-- Claim C10: the branch analysis of `SkPath::conicTo`. A weight with
`!(w > 0)` (non-positive or NaN) appends a single line to `(x2, y2)`; an
infinite weight appends two lines (to `(x1, y1)` then `(x2, y2)`); `w == 1`
appends a quad; only otherwise is a conic verb stored, and then the stored
weight is `w` itself, finite, strictly positive and not equal to one — hence
every conic weight stored through this entry point is finite and strictly
positive. -/
theorem conicTo_branches (p : Path) (x1 y1 x2 y2 w : FP) :
    (FP.lt (.fin 0) w = false → p.conicTo x1 y1 x2 y2 w = p.lineTo x2 y2) ∧
    (FP.lt (.fin 0) w = true → w.isFinite = false →
      p.conicTo x1 y1 x2 y2 w = (p.lineTo x1 y1).lineTo x2 y2) ∧
    (FP.lt (.fin 0) w = true → w.isFinite = true → FP.beq (.fin 1) w = true →
      p.conicTo x1 y1 x2 y2 w = p.quadTo x1 y1 x2 y2) ∧
    (FP.lt (.fin 0) w = true → w.isFinite = true → FP.beq (.fin 1) w = false →
      (p.conicTo x1 y1 x2 y2 w).ref.verbs
          = p.injectMoveToIfNeeded.ref.verbs ++ [Verb.conic] ∧
      (p.conicTo x1 y1 x2 y2 w).ref.weights = p.ref.weights ++ [w]) ∧
    ((p.conicTo x1 y1 x2 y2 w).ref.weights = p.ref.weights ∨
      ((p.conicTo x1 y1 x2 y2 w).ref.weights = p.ref.weights ++ [w] ∧
        w.isFinite = true ∧ FP.lt (.fin 0) w = true ∧ FP.beq (.fin 1) w = false)) := by
  refine ⟨?_, ?_, ?_, ?_, ?_⟩
  · intro h
    unfold Path.conicTo
    simp [h]
  · intro h hf
    unfold Path.conicTo
    simp [h, hf]
  · intro h hf h1
    unfold Path.conicTo
    simp [h, hf, h1]
  · intro h hf h1
    unfold Path.conicTo
    simp only [h, hf, h1, Bool.not_true, Bool.false_eq_true, if_false, Bool.not_false,
      if_true]
    exact ⟨by simp [PathRef.growForVerb], by simp [PathRef.growForVerb,
      weights_injectMoveToIfNeeded]⟩
  · by_cases h : FP.lt (.fin 0) w = true
    · by_cases hf : w.isFinite = true
      · by_cases h1 : FP.beq (.fin 1) w = true
        · left
          unfold Path.conicTo
          simp [h, hf, h1, weights_quadTo]
        · right
          refine ⟨?_, hf, h, by simpa using h1⟩
          unfold Path.conicTo
          simp only [h, hf, Bool.not_true, Bool.false_eq_true, if_false,
            eq_self_iff_true] at *
          simp [h1, PathRef.growForVerb, weights_injectMoveToIfNeeded]
      · left
        unfold Path.conicTo
        simp only [h, Bool.not_true, Bool.false_eq_true, if_false]
        simp [Bool.not_eq_true] at hf
        simp [hf, weights_lineTo]
    · left
      unfold Path.conicTo
      simp only [Bool.not_eq_true] at h
      simp [h, weights_lineTo]

/-- Witness for `conicTo_branches`: at weight 2 on the empty path the
hypotheses of the conic branch hold and a conic with weight 2 is stored. -/
theorem conicTo_branches_witness :
    (FP.lt (.fin 0) (.fin (mkRat 2 1)) = true ∧
      (FP.fin (mkRat 2 1)).isFinite = true ∧
      FP.beq (.fin 1) (.fin (mkRat 2 1)) = false) ∧
    ((Path.empty.conicTo (.fin 1) (.fin 1) (.fin 2) (.fin 0)
        (.fin (mkRat 2 1))).ref.weights = [] ++ [.fin (mkRat 2 1)]) := by
  refine ⟨⟨by decide, by decide, by decide⟩, ?_⟩
  exact ((conicTo_branches Path.empty (.fin 1) (.fin 1) (.fin 2) (.fin 0)
    (.fin (mkRat 2 1))).2.2.2.1 (by decide) (by decide) (by decide)).2

theorem fpHalf_nonpos (w : FP) (hw : FP.le w (.fin 0) = true) :
    FP.le (FP.half w) (.fin 0) = true := by
  match w with
  | .nan => simp [FP.le] at hw
  | .inf s =>
    simp only [FP.le] at hw
    have hq : qLt (mkRat 1 2) 0 = false := by decide
    simp [FP.half, FP.mul, FP.le, hw, hq, show (mkRat 1 2 : ℚ) ≠ 0 by decide]
  | .fin q =>
    simp only [FP.le, qLe_iff] at hw
    simp only [FP.half, FP.mul, FP.le, qLe_iff, qMul_eq]
    have h2 : (0 : ℚ) ≤ mkRat 1 2 := (qLe_iff _ _).mp (by decide)
    exact mul_nonpos_of_nonpos_of_nonneg hw h2

/-- Claim C2: for any source path and any stroke width `w ≤ 0` (any miter
limit, cap, join and resolution scale), both the single-parameter stroke
(`SkStroke::strokePath`) and the multi-parameter stroke
(`StrokePathWithMultiParams`, given a non-empty parameter sequence) emit an
empty destination path; the multi-parameter variant also returns false. -/
theorem stroke_width_nonpos_empty (w : FP) (src dstInit : Path)
    (rest restM : Path → Path) (params : List StrokeParams)
    (hp : params ≠ []) (hw : FP.le w (.fin 0) = true) :
    strokePathResult w src rest = Path.empty ∧
    strokeMultiResult w params dstInit src restM = (Path.empty, false) := by
  have hr : FP.le (FP.half w) (.fin 0) = true := fpHalf_nonpos w hw
  constructor
  · unfold strokePathResult
    simp [hr]
  · unfold strokeMultiResult
    simp [hr, List.isEmpty_iff, hp]

/-- Witness for `stroke_width_nonpos_empty` at width `-2` and a singleton
parameter list. -/
theorem stroke_width_nonpos_empty_witness :
    (([defaultStrokeParams] : List StrokeParams) ≠ [] ∧
      FP.le (.fin (mkRat (-2) 1)) (.fin 0) = true) ∧
    (strokePathResult (.fin (mkRat (-2) 1)) Path.empty id = Path.empty ∧
      strokeMultiResult (.fin (mkRat (-2) 1)) [defaultStrokeParams] Path.empty
        Path.empty id = (Path.empty, false)) := by
  refine ⟨⟨by decide, by decide⟩, ?_⟩
  exact stroke_width_nonpos_empty (.fin (mkRat (-2) 1)) Path.empty Path.empty id id
    [defaultStrokeParams] (by decide) (by decide)

/-- Counterexample to claim C4's endpoint rule: with tangent distance 3 and
two endpoint curves of length 4 in an open contour, the claim's clamp (full
length on an endpoint side) keeps the distance 3, while `BuildCornerCurve`
clamps each side to half the curve length and yields 2. -/
theorem corner_clamp_counterexample :
    claimClampedDistance 3 4 4 true true = 3 ∧
    buildCornerClampedDistance 3 4 4 = 2 ∧
    buildCornerClampedDistance 3 4 4 ≠ claimClampedDistance 3 4 4 true true := by
  refine ⟨?_, ?_, ?_⟩ <;>
    norm_num [claimClampedDistance, claimSideLimit, buildCornerClampedDistance]

/-- Claim C4 (amended): in the corner-rounding effect the fillet tangent
distance `d` is clamped to `min(d, Ls/2, Le/2)` — the limit on each side is
half that curve's arc length, for interior joins and endpoint curves alike.
Equivalently, the code's clamp agrees with the claim's formula only when both
sides are treated as interior joins. -/
theorem corner_clamp_always_half (d ls le : ℚ) :
    buildCornerClampedDistance d ls le = min d (min (ls / 2) (le / 2)) ∧
    buildCornerClampedDistance d ls le = claimClampedDistance d ls le false false := by
  have h : buildCornerClampedDistance d ls le = min d (min (ls / 2) (le / 2)) := by
    unfold buildCornerClampedDistance
    rw [min_min_min_comm, min_self]
  exact ⟨h, by simpa [claimClampedDistance, claimSideLimit] using h⟩

/-- Counterexample to claim C8's half-open right edge: on the rectangle path
`addRect(0,0,10,10)` under winding fill, `contains(10, 5)` evaluates to true
(the left edge contributes winding −1 and the ray's crossing of the right
edge is classified on-curve, which does not cancel it), not false as claimed. -/
theorem rect_contains_right_edge_counterexample :
    (Path.empty.addRect (FRect.mkQ 0 0 10 10) .cw 0).containsLin
      (.fin 10) (.fin 5) = some true := by
  decide

/-- Claim C8 (amended): for the path built by `addRect(0,0,10,10)` under
winding fill, `contains(5,5)` is true, `contains(0,0)` is true,
`contains(-1,-1)` is false, and `contains(10,5)` is also true — the right
edge is included, not half-open. -/
theorem rect_contains_probes :
    (Path.empty.addRect (FRect.mkQ 0 0 10 10) .cw 0).containsLin
      (.fin 5) (.fin 5) = some true ∧
    (Path.empty.addRect (FRect.mkQ 0 0 10 10) .cw 0).containsLin
      (.fin 0) (.fin 0) = some true ∧
    (Path.empty.addRect (FRect.mkQ 0 0 10 10) .cw 0).containsLin
      (.fin (mkRat (-1) 1)) (.fin (mkRat (-1) 1)) = some false ∧
    (Path.empty.addRect (FRect.mkQ 0 0 10 10) .cw 0).containsLin
      (.fin 10) (.fin 5) ≠ some false := by
  refine ⟨by decide, by decide, by decide, by decide⟩

/-- Counterexample to claim C7's verb count on "a path holding only moves":
a single prior `moveTo` leaves `hasOnlyMoveTos` true, yet `addOval` then
produces 7 verbs (the old move survives), not 6. -/
theorem addOval_prior_move_counterexample :
    (Path.empty.moveTo (.fin 0) (.fin 0)).hasOnlyMoveTos = true ∧
    ((Path.empty.moveTo (.fin 0) (.fin 0)).addOval
      (FRect.mkQ 0 0 100 50) .cw 1).ref.verbs.length = 7 := by
  refine ⟨by decide, by decide⟩

theorem fpLt_asymm (a b : FP) (h : FP.lt a b = true) : FP.lt b a = false := by
  cases a with
  | nan => simp [FP.lt] at h
  | inf s =>
    cases b with
    | nan => simp [FP.lt]
    | inf t => cases s <;> cases t <;> simp_all [FP.lt]
    | fin q => cases s <;> simp_all [FP.lt]
  | fin p =>
    cases b with
    | nan => simp [FP.lt] at h
    | inf t => cases t <;> simp_all [FP.lt]
    | fin q =>
      simp only [FP.lt] at h ⊢
      rw [Bool.eq_false_iff]
      intro hc
      exact absurd ((qLt_iff _ _).mp hc)
        (not_lt.mpr (le_of_lt ((qLt_iff _ _).mp h)))

/-- Counterexample to claim C5's `topNeg = 1`: under the mirror matrix
`diag(-1, 1)` the source's `topNeg` is the bit `0b10 = 2`, so an oval hint
with start index 0 is updated by `transform_dir_and_start` to start
`(6 + 2 - 0) % 4 = 0`, while the claim's formula with `topNeg = 1` predicts
`(6 + 1 - 0) % 4 = 3`. -/
theorem transform_hint_topneg_counterexample :
    (transformDirAndStart
        ⟨.fin (mkRat (-1) 1), .fin 0, .fin 0, .fin 0, .fin 1, .fin 0,
         .fin 0, .fin 0, .fin 1⟩ false false 0).2 = 0 ∧
    (claimDirAndStart
        ⟨.fin (mkRat (-1) 1), .fin 0, .fin 0, .fin 0, .fin 1, .fin 0,
         .fin 0, .fin 0, .fin 1⟩ false false 0).2 = 3 ∧
    transformDirAndStart
        ⟨.fin (mkRat (-1) 1), .fin 0, .fin 0, .fin 0, .fin 1, .fin 0,
         .fin 0, .fin 0, .fin 1⟩ false false 0 ≠
      claimDirAndStart
        ⟨.fin (mkRat (-1) 1), .fin 0, .fin 0, .fin 0, .fin 1, .fin 0,
         .fin 0, .fin 0, .fin 1⟩ false false 0 := by
  refine ⟨by decide, by decide, by decide⟩

/-- Claim C5 (amended): with `topNeg` the source's bit `0b10` — that is, `2`
(not `1`) when the selected top entry is negative — and the selected diagonal
or antidiagonal entries both sign-definite (nonzero, non-NaN), the hint
update is: rotation (`sameSign ≠ antidiag`) keeps the direction and maps the
start to `(in + 4 - (topNeg | antidiag)) mod 4`, mirror negates the direction
and maps it to `(6 + (topNeg | antidiag) - in) mod 4`; round-rect starts are
`2*s + rm` resp. `2*s + (1 - rm)` with `rm = in mod 2`. -/
theorem transform_dir_and_start_amended (m : Matrix) (isRRect isCCW : Bool) (start : ℕ)
    (hT : (FP.lt (.fin 0) (if FP.beq m.scaleX (.fin 0) then m.skewX else m.scaleX) ||
           FP.lt (if FP.beq m.scaleX (.fin 0) then m.skewX else m.scaleX) (.fin 0)) = true)
    (hO : (FP.lt (.fin 0) (if FP.beq m.scaleX (.fin 0) then m.skewY else m.scaleY) ||
           FP.lt (if FP.beq m.scaleX (.fin 0) then m.skewY else m.scaleY) (.fin 0)) = true) :
    transformDirAndStart m isRRect isCCW start =
      (let rm := if isRRect then start % 2 else 0
       let inStart := if isRRect then start / 2 else start
       let antiDiag : ℕ := if FP.beq m.scaleX (.fin 0) then 1 else 0
       let topEntry := if FP.beq m.scaleX (.fin 0) then m.skewX else m.scaleX
       let otherEntry := if FP.beq m.scaleX (.fin 0) then m.skewY else m.scaleY
       let topNeg : ℕ := if FP.lt topEntry (.fin 0) then 2 else 0
       let sameSign : ℕ :=
         if (FP.lt (.fin 0) topEntry && FP.lt (.fin 0) otherEntry) ||
            (FP.lt topEntry (.fin 0) && FP.lt otherEntry (.fin 0)) then 1 else 0
       if sameSign ≠ antiDiag then
         (isCCW,
          if isRRect then 2 * ((inStart + 4 - (topNeg ||| antiDiag)) % 4) + rm
          else (inStart + 4 - (topNeg ||| antiDiag)) % 4)
       else
         (!isCCW,
          if isRRect then 2 * ((6 + (topNeg ||| antiDiag) - inStart) % 4) + (1 - rm)
          else (6 + (topNeg ||| antiDiag) - inStart) % 4)) := by
  have hrm : (if start % 2 = 1 then (0 : ℕ) else 1) = 1 - start % 2 := by
    rcases Nat.mod_two_eq_zero_or_one start with h | h <;> simp [h]
  cases hb : FP.beq m.scaleX (.fin 0) with
  | false =>
    simp only [hb, Bool.false_eq_true, if_false] at hT hO
    cases hlt : FP.lt (.fin 0) m.scaleX with
    | true =>
      have h2 : FP.lt m.scaleX (.fin 0) = false := fpLt_asymm _ _ hlt
      cases isRRect <;> simp [transformDirAndStart, hb, hlt, h2, hrm]
    | false =>
      have h2 : FP.lt m.scaleX (.fin 0) = true := by simpa [hlt] using hT
      cases hly : FP.lt (.fin 0) m.scaleY with
      | true =>
        have h3 : FP.lt m.scaleY (.fin 0) = false := fpLt_asymm _ _ hly
        cases isRRect <;> simp [transformDirAndStart, hb, hlt, h2, hly, h3, hrm]
      | false =>
        have h3 : FP.lt m.scaleY (.fin 0) = true := by simpa [hly] using hO
        cases isRRect <;> simp [transformDirAndStart, hb, hlt, h2, hly, h3, hrm]
  | true =>
    simp only [hb, if_true] at hT hO
    cases hlt : FP.lt (.fin 0) m.skewX with
    | true =>
      have h2 : FP.lt m.skewX (.fin 0) = false := fpLt_asymm _ _ hlt
      cases isRRect <;> simp [transformDirAndStart, hb, hlt, h2, hrm]
    | false =>
      have h2 : FP.lt m.skewX (.fin 0) = true := by simpa [hlt] using hT
      cases hly : FP.lt (.fin 0) m.skewY with
      | true =>
        have h3 : FP.lt m.skewY (.fin 0) = false := fpLt_asymm _ _ hly
        cases isRRect <;> simp [transformDirAndStart, hb, hlt, h2, hly, h3, hrm]
      | false =>
        have h3 : FP.lt m.skewY (.fin 0) = true := by simpa [hly] using hO
        cases isRRect <;> simp [transformDirAndStart, hb, hlt, h2, hly, h3, hrm]

/-- Witness for `transform_dir_and_start_amended` at the mirror `diag(-1, 1)`,
no round-rect hint, direction cw (`isCCW = false`), start index 1: the update
is a mirror, so the direction flips and the start becomes
`(6 + 2 - 1) % 4 = 3`. -/
theorem transform_dir_and_start_amended_witness :
    (FP.lt (.fin 0) (.fin (mkRat (-1) 1)) || FP.lt (.fin (mkRat (-1) 1)) (.fin 0)) = true ∧
    (FP.lt (.fin 0) (.fin 1) || FP.lt (.fin 1) (.fin 0)) = true ∧
    transformDirAndStart
      ⟨.fin (mkRat (-1) 1), .fin 0, .fin 0, .fin 0, .fin 1, .fin 0,
       .fin 0, .fin 0, .fin 1⟩ false false 1 = (true, 3) := by
  refine ⟨by decide, by decide, ?_⟩
  rw [transform_dir_and_start_amended
    ⟨.fin (mkRat (-1) 1), .fin 0, .fin 0, .fin 0, .fin 1, .fin 0,
     .fin 0, .fin 0, .fin 1⟩ false false 1 (by decide) (by decide)]
  decide

theorem advCount_cons (x : StrokedElem) (l : List StrokedElem) :
    advCount (x :: l) = (if x.advances then 1 else 0) + advCount l := by
  simp only [advCount, List.filter_cons]
  split <;> simp [Nat.add_comm]

theorem multiTraceLoop_idxOf (params : List StrokeParams) (events : List IterEvent) :
    ∀ (idx : ℕ) (st : StrokerProbe) (k : ℕ),
      k < (multiTraceLoop params events idx st).length →
      ((multiTraceLoop params events idx st).getD k (.doneCap 0)).idxOf =
        idx + advCount ((multiTraceLoop params events idx st).take k) := by
  induction events with
  | nil =>
    intro idx st k hk
    have hk0 : k = 0 := Nat.lt_one_iff.mp (by simpa [multiTraceLoop] using hk)
    subst hk0
    simp [multiTraceLoop, advCount, StrokedElem.idxOf]
  | cons e rest ih =>
    intro idx st k hk
    cases e with
    | move p0 =>
      rw [show multiTraceLoop params (.move p0 :: rest) idx st =
            multiTraceLoop params rest idx (strokerProbeMove st p0) from rfl] at hk ⊢
      exact ih idx _ k hk
    | line p0 p1 =>
      rw [show multiTraceLoop params (.line p0 p1 :: rest) idx st =
            .seg (.line p0 p1) idx ::
              multiTraceLoop params rest (idx + 1) (strokerProbeSeg st [p1]) from rfl]
        at hk ⊢
      cases k with
      | zero => simp [StrokedElem.idxOf, advCount]
      | succ k =>
        simp only [List.getD_cons_succ, List.take_succ_cons, advCount_cons]
        rw [ih (idx + 1) _ k (by simpa using hk)]
        simp [StrokedElem.advances]
        omega
    | quad p0 p1 p2 =>
      rw [show multiTraceLoop params (.quad p0 p1 p2 :: rest) idx st =
            .seg (.quad p0 p1 p2) idx ::
              multiTraceLoop params rest (idx + 1) (strokerProbeSeg st [p1, p2]) from rfl]
        at hk ⊢
      cases k with
      | zero => simp [StrokedElem.idxOf, advCount]
      | succ k =>
        simp only [List.getD_cons_succ, List.take_succ_cons, advCount_cons]
        rw [ih (idx + 1) _ k (by simpa using hk)]
        simp [StrokedElem.advances]
        omega
    | conic p0 p1 p2 w =>
      rw [show multiTraceLoop params (.conic p0 p1 p2 w :: rest) idx st =
            .seg (.conic p0 p1 p2 w) idx ::
              multiTraceLoop params rest (idx + 1) (strokerProbeSeg st [p1, p2]) from rfl]
        at hk ⊢
      cases k with
      | zero => simp [StrokedElem.idxOf, advCount]
      | succ k =>
        simp only [List.getD_cons_succ, List.take_succ_cons, advCount_cons]
        rw [ih (idx + 1) _ k (by simpa using hk)]
        simp [StrokedElem.advances]
        omega
    | cubic p0 p1 p2 p3 =>
      rw [show multiTraceLoop params (.cubic p0 p1 p2 p3 :: rest) idx st =
            .seg (.cubic p0 p1 p2 p3) idx ::
              multiTraceLoop params rest (idx + 1)
                (strokerProbeSeg st [p1, p2, p3]) from rfl]
        at hk ⊢
      cases k with
      | zero => simp [StrokedElem.idxOf, advCount]
      | succ k =>
        simp only [List.getD_cons_succ, List.take_succ_cons, advCount_cons]
        rw [ih (idx + 1) _ k (by simpa using hk)]
        simp [StrokedElem.advances]
        omega
    | close =>
      simp only [multiTraceLoop] at hk ⊢
      split at hk
      · rename_i h1
        rw [if_pos h1]
        cases k with
        | zero => simp [StrokedElem.idxOf, advCount]
        | succ k =>
          simp only [List.getD_cons_succ, List.take_succ_cons, advCount_cons]
          rw [ih idx _ k (by simpa using hk)]
          simp [StrokedElem.advances]
      · rename_i h1
        rw [if_neg h1]
        split at hk
        · rename_i h2
          rw [if_pos h2]
          exact ih idx st k hk
        · rename_i h2
          rw [if_neg h2]
          cases k with
          | zero => simp [StrokedElem.idxOf, advCount]
          | succ k =>
            simp only [List.getD_cons_succ, List.take_succ_cons, advCount_cons]
            rw [ih (idx + 1) st k (by simpa using hk)]
            simp [StrokedElem.advances]
            omega

/-- Counterexample to claim C6's "each close advances the index": on the
source `moveTo(0,0); close; moveTo(0,0); lineTo(1,0)` with the two-parameter
sequence `[(4, round, miter), (4, butt, miter)]`, the close is degenerate
(only a move in its contour) under the round cap of the then-current tuple,
so it strokes a synthesized zero-length line and does not advance: the real
line then receives index 0 (the round tuple), while the claim's rule counts
the close and predicts index 1 (the butt tuple). -/
theorem multi_params_close_counterexample :
    (((Path.empty.moveTo (.fin 0) (.fin 0)).close.moveTo (.fin 0) (.fin 0)).lineTo
        (.fin 1) (.fin 0)).multiParamTrace
      [⟨.fin 4, .round, .miter⟩, ⟨.fin 4, .butt, .miter⟩] =
      [.zeroLenCap 0, .seg (.line ⟨.fin 0, .fin 0⟩ ⟨.fin 1, .fin 0⟩) 0, .doneCap 1] ∧
    claimAdvanceCount [.move ⟨.fin 0, .fin 0⟩, .close, .move ⟨.fin 0, .fin 0⟩] = 1 := by
  refine ⟨by decide, by decide⟩

/-- Claim C6 (amended): in the multi-parameter stroke the tuple applied to a
stroked element is `P[i mod |P|]` where `i` counts, among the preceding
elements, the non-move segments and the closes that reach `stroker.close`; a
degenerate close under a non-butt current cap (a contour holding only a move,
or a zero-length contour) strokes at most a synthesized zero-length cap and
does not advance the index. Formally: the index received by the `k`-th
element of the trace is the number of advancing elements before it. -/
theorem multi_params_cycling (src : Path) (params : List StrokeParams) (k : ℕ)
    (hk : k < (src.multiParamTrace params).length) :
    ((src.multiParamTrace params).getD k (.doneCap 0)).idxOf =
      advCount ((src.multiParamTrace params).take k) := by
  have h := multiTraceLoop_idxOf params (src.iterEvents false) 0
    ⟨-1, FPoint.zero, true⟩ k (by simpa [Path.multiParamTrace] using hk)
  simpa [Path.multiParamTrace] using h

/-- Witness for `multi_params_cycling` at the counterexample's source and
parameters, `k = 1`: the element is the stroked line, its index is 0, and no
advancing element precedes it. -/
theorem multi_params_cycling_witness :
    1 < ((((Path.empty.moveTo (.fin 0) (.fin 0)).close.moveTo (.fin 0) (.fin 0)).lineTo
        (.fin 1) (.fin 0)).multiParamTrace
      [⟨.fin 4, .round, .miter⟩, ⟨.fin 4, .butt, .miter⟩]).length ∧
    (((((Path.empty.moveTo (.fin 0) (.fin 0)).close.moveTo (.fin 0) (.fin 0)).lineTo
        (.fin 1) (.fin 0)).multiParamTrace
      [⟨.fin 4, .round, .miter⟩, ⟨.fin 4, .butt, .miter⟩]).getD 1 (.doneCap 0)).idxOf =
      advCount ((((((Path.empty.moveTo (.fin 0) (.fin 0)).close.moveTo (.fin 0)
        (.fin 0)).lineTo (.fin 1) (.fin 0)).multiParamTrace
      [⟨.fin 4, .round, .miter⟩, ⟨.fin 4, .butt, .miter⟩])).take 1) := by
  exact ⟨by decide, multi_params_cycling _ _ 1 (by decide)⟩

theorem getD_set_ne {α : Type} (l : List α) (d a : α) (i j : ℕ) (hij : i ≠ j) :
    (l.set i a).getD j d = l.getD j d := by
  rw [List.getD_eq_getD_get?, List.getD_eq_getD_get?]
  rw [show (l.set i a).get? j = l.get? j from by
    simp [List.get?_eq_getElem?, List.getElem?_set_ne hij]]

/-- Claim C9: mutating a path through one handle leaves the verbs, points,
conic weights and segment mask seen through any other handle unchanged, and
the body at index 0 — the process-wide shared empty body, on which
`CreateEmpty` retains a strong reference — is never mutated in place: the
editor deep-copies any body whose reference count exceeds one (in particular
any body shared between two handles) and re-seats the owning reference. -/
theorem mutate_preserves_other_view (s : Sys) (k l : ℕ) (op : MutOp)
    (hk : k < s.handles.length) (hl : l < s.handles.length) (hne : k ≠ l)
    (hlb : (s.handles.getD l defaultHandle).bodyIdx < s.bodies.length)
    (hb0 : 0 < s.bodies.length) :
    (s.mutate k op).view l = s.view l ∧
    (s.mutate k op).bodies.getD 0 PathRef.empty = s.bodies.getD 0 PathRef.empty := by
  have hget : s.handles.get? k = some (s.handles.get ⟨k, hk⟩) := List.get?_eq_get hk
  set h := s.handles.get ⟨k, hk⟩ with hh
  have hkD : s.handles.getD k defaultHandle = h := by
    rw [List.getD_eq_getElem s.handles defaultHandle hk]
    rfl
  have hkmem : k ∈ (Finset.range s.handles.length).filter
      (fun j => (s.handles.getD j defaultHandle).bodyIdx = h.bodyIdx) := by
    rw [Finset.mem_filter, Finset.mem_range]
    exact ⟨hk, by rw [hkD]⟩
  have hcard : 0 < ((Finset.range s.handles.length).filter
      (fun j => (s.handles.getD j defaultHandle).bodyIdx = h.bodyIdx)).card :=
    Finset.card_pos.mpr ⟨k, hkmem⟩
  simp only [Sys.mutate, hget]
  by_cases hrc : s.refCount h.bodyIdx = 1
  · have hnz : h.bodyIdx ≠ 0 := by
      intro h0
      rw [Sys.refCount, if_pos h0] at hrc
      omega
    have hlne : (s.handles.getD l defaultHandle).bodyIdx ≠ h.bodyIdx := by
      intro heq
      have hlmem : l ∈ (Finset.range s.handles.length).filter
          (fun j => (s.handles.getD j defaultHandle).bodyIdx = h.bodyIdx) := by
        rw [Finset.mem_filter, Finset.mem_range]
        exact ⟨hl, heq⟩
      have h2 : 1 < ((Finset.range s.handles.length).filter
          (fun j => (s.handles.getD j defaultHandle).bodyIdx = h.bodyIdx)).card :=
        Finset.one_lt_card.mpr ⟨k, hkmem, l, hlmem, hne⟩
      have hge : ((Finset.range s.handles.length).filter
          (fun j => (s.handles.getD j defaultHandle).bodyIdx = h.bodyIdx)).card ≤
          s.refCount h.bodyIdx := by
        rw [Sys.refCount]
        exact Nat.le_add_right _ _
      omega
    rw [if_pos hrc]
    constructor
    · simp only [Sys.view]
      rw [getD_set_ne _ _ _ _ _ hne, getD_set_ne _ _ _ _ _ (Ne.symm hlne)]
    · exact getD_set_ne _ _ _ _ _ hnz
  · rw [if_neg hrc]
    constructor
    · simp only [Sys.view]
      rw [getD_set_ne _ _ _ _ _ hne, List.getD_append _ _ _ _ hlb]
    · exact List.getD_append _ _ _ _ hb0

/-- Witness for `mutate_preserves_other_view`: two handles sharing body 1;
appending a line through handle 0 leaves handle 1's view unchanged. -/
theorem mutate_preserves_other_view_witness :
    (0 : ℕ) ≠ 1 ∧
    ((Sys.mk [PathRef.empty, (Path.empty.lineTo (.fin 1) (.fin 2)).ref]
        [⟨1, -1, .winding⟩, ⟨1, -1, .winding⟩]).mutate 0
          (.lineTo (.fin 3) (.fin 4))).view 1 =
      (Sys.mk [PathRef.empty, (Path.empty.lineTo (.fin 1) (.fin 2)).ref]
        [⟨1, -1, .winding⟩, ⟨1, -1, .winding⟩]).view 1 := by
  refine ⟨by decide, ?_⟩
  exact (mutate_preserves_other_view
    (Sys.mk [PathRef.empty, (Path.empty.lineTo (.fin 1) (.fin 2)).ref]
      [⟨1, -1, .winding⟩, ⟨1, -1, .winding⟩]) 0 1 (.lineTo (.fin 3) (.fin 4))
    (by decide) (by decide) (by decide) (by decide) (by decide)).1

theorem fpLt_nan_right (c : FP) : FP.lt c .nan = false := by cases c <;> rfl

theorem fpLt_neginf_right (c : FP) : FP.lt c (.inf true) = false := by
  cases c <;> simp [FP.lt]

theorem fpLt_posinf_left (d : FP) : FP.lt (.inf false) d = false := by
  cases d <;> simp [FP.lt]

theorem fpAdd_finite (a b : FP) :
    (FP.add a b).isFinite = (a.isFinite && b.isFinite) := by
  cases a with
  | nan => cases b <;> rfl
  | inf s =>
    cases b with
    | nan => rfl
    | inf t => by_cases hst : s = t <;> simp [FP.add, FP.isFinite, hst]
    | fin q => rfl
  | fin p => cases b <;> rfl

theorem fpMul_finite (a b : FP) :
    (FP.mul a b).isFinite = (a.isFinite && b.isFinite) := by
  cases a with
  | nan => cases b <;> rfl
  | inf s =>
    cases b with
    | nan => rfl
    | inf t => rfl
    | fin q => by_cases hq : q = 0 <;> simp [FP.mul, FP.isFinite, hq]
  | fin p =>
    cases b with
    | nan => rfl
    | inf t => by_cases hp : p = 0 <;> simp [FP.mul, FP.isFinite, hp]
    | fin q => rfl

theorem fpNeg_finite (a : FP) : (FP.neg a).isFinite = a.isFinite := by
  cases a <;> rfl

theorem fpSub_finite (a b : FP) :
    (FP.sub a b).isFinite = (a.isFinite && b.isFinite) := by
  rw [FP.sub, fpAdd_finite, fpNeg_finite]

theorem fpAve_finite (a b : FP) :
    (FP.ave a b).isFinite = (a.isFinite && b.isFinite) := by
  rw [FP.ave, fpMul_finite, fpAdd_finite]
  simp [FP.isFinite]

theorem axis_sort_finite (a b : FP) :
    ((if FP.lt b a then b else a).isFinite && (if FP.lt b a then a else b).isFinite) =
      (a.isFinite && b.isFinite) := by
  split <;> simp [Bool.and_comm]

theorem stdMin_nan (c : FP) : FP.stdMin .nan c = .nan := by
  unfold FP.stdMin
  simp [fpLt_nan_right]

theorem stdMin_neginf (c : FP) : FP.stdMin (.inf true) c = .inf true := by
  unfold FP.stdMin
  simp [fpLt_neginf_right]

theorem fpLt_nan_left (d : FP) : FP.lt .nan d = false := by cases d <;> rfl

theorem stdMax_nan (d : FP) : FP.stdMax .nan d = .nan := by
  unfold FP.stdMax
  simp [fpLt_nan_left]

theorem stdMax_posinf (d : FP) : FP.stdMax (.inf false) d = .inf false := by
  unfold FP.stdMax
  simp [fpLt_posinf_left]

theorem axis_min_max_survive (a b c d : FP)
    (h : ((FP.stdMin (if FP.lt b a then b else a) c).isFinite &&
          (FP.stdMax (if FP.lt b a then a else b) d).isFinite) = true) :
    (a.isFinite && b.isFinite) = true := by
  cases a with
  | nan => simp [fpLt_nan_right, stdMin_nan, FP.isFinite] at h
  | inf s =>
    cases s with
    | true => simp [fpLt_neginf_right, stdMin_neginf, FP.isFinite] at h
    | false =>
      cases b with
      | nan =>
        simp [show FP.lt FP.nan (.inf false) = false from rfl, stdMax_nan,
          FP.isFinite] at h
      | inf t =>
        cases t with
        | true =>
          simp [show FP.lt (FP.inf true) (.inf false) = true from rfl,
            stdMax_posinf, FP.isFinite] at h
        | false =>
          simp [show FP.lt (FP.inf false) (.inf false) = false from rfl,
            stdMax_posinf, FP.isFinite] at h
      | fin q =>
        simp [show FP.lt (FP.fin q) (.inf false) = true from rfl,
          stdMax_posinf, FP.isFinite] at h
  | fin p =>
    cases b with
    | nan =>
      simp [show FP.lt FP.nan (.fin p) = false from rfl, stdMax_nan,
        FP.isFinite] at h
    | inf t =>
      cases t with
      | true =>
        simp [show FP.lt (FP.inf true) (.fin p) = true from rfl,
          stdMin_neginf, FP.isFinite] at h
      | false =>
        simp [show FP.lt (FP.inf false) (.fin p) = false from rfl,
          stdMax_posinf, FP.isFinite] at h
    | fin q => simp [FP.isFinite]

theorem sorted_components (r : FRect) :
    r.sorted = ⟨(if FP.lt r.right r.left then r.right else r.left),
      (if FP.lt r.bottom r.top then r.bottom else r.top),
      (if FP.lt r.right r.left then r.left else r.right),
      (if FP.lt r.bottom r.top then r.top else r.bottom)⟩ := by
  by_cases h1 : FP.lt r.right r.left = true <;>
    by_cases h2 : FP.lt r.bottom r.top = true <;>
      simp [FRect.sorted, h1, h2]

theorem sorted_isFinite (r : FRect) : r.sorted.isFinite = r.isFinite := by
  rw [sorted_components]
  by_cases h1 : FP.lt r.right r.left = true <;>
    by_cases h2 : FP.lt r.bottom r.top = true <;>
      simp [FRect.isFinite, h1, h2, Bool.and_comm, Bool.and_left_comm, Bool.and_assoc]

theorem join_sorted_finite (r b : FRect)
    (h : (joinNoEmptyChecks r.sorted b).isFinite = true) :
    r.isFinite = true := by
  rw [sorted_components] at h
  have h' : ((FP.stdMin (if FP.lt r.right r.left then r.right else r.left) b.left).isFinite &&
      (FP.stdMin (if FP.lt r.bottom r.top then r.bottom else r.top) b.top).isFinite &&
      (FP.stdMax (if FP.lt r.right r.left then r.left else r.right) b.right).isFinite &&
      (FP.stdMax (if FP.lt r.bottom r.top then r.top else r.bottom) b.bottom).isFinite) =
      true := h
  simp only [Bool.and_eq_true] at h'
  have hx := axis_min_max_survive r.left r.right b.left b.right
    (by rw [Bool.and_eq_true]; exact ⟨h'.1.1.1, h'.1.2⟩)
  have hy := axis_min_max_survive r.top r.bottom b.top b.bottom
    (by rw [Bool.and_eq_true]; exact ⟨h'.1.1.2, h'.2⟩)
  simp only [Bool.and_eq_true] at hx hy
  simp [FRect.isFinite, hx.1, hx.2, hy.1, hy.2]

theorem wfb_of_dirty (p : Path) (hd : p.ref.boundsIsDirty = true) : WFB p := by
  intro hd' _
  rw [hd] at hd'
  cases hd'

theorem verbAdvanceSum_append (vs ws : List Verb) :
    verbAdvanceSum (vs ++ ws) = verbAdvanceSum vs + verbAdvanceSum ws := by
  simp [verbAdvanceSum]

theorem inv_growForVerb (r : PathRef) (v : Verb) (newPts : List FPoint) (w : Option FP)
    (h1 : verbAdvanceSum r.verbs = r.pts.length)
    (h2 : r.verbs.count Verb.conic = r.weights.length)
    (hlen : newPts.length = claimAdvance v)
    (hw : (if v = .conic then w.toList else []).length = if v = .conic then 1 else 0) :
    verbAdvanceSum (r.growForVerb v newPts w).verbs =
      (r.growForVerb v newPts w).pts.length ∧
    (r.growForVerb v newPts w).verbs.count Verb.conic =
      (r.growForVerb v newPts w).weights.length := by
  constructor
  · show verbAdvanceSum (r.verbs ++ [v]) = (r.pts ++ newPts).length
    rw [verbAdvanceSum_append, List.length_append, h1, hlen]
    simp [verbAdvanceSum]
  · show (r.verbs ++ [v]).count Verb.conic =
      (r.weights ++ (if v = .conic then w.toList else [])).length
    rw [List.count_append, List.length_append, h2, hw]
    by_cases hv : v = Verb.conic <;> simp [hv, List.count_singleton]

theorem pathInv_moveTo (p : Path) (x y : FP) (h : PathInv p) : PathInv (p.moveTo x y) := by
  obtain ⟨h1, h2, _⟩ := h
  have hg := inv_growForVerb p.ref .move [⟨x, y⟩] none h1 h2 rfl rfl
  exact ⟨hg.1, hg.2, wfb_of_dirty _ rfl⟩

theorem pathInv_inject (p : Path) (h : PathInv p) : PathInv p.injectMoveToIfNeeded := by
  unfold Path.injectMoveToIfNeeded
  split
  · split
    · exact pathInv_moveTo _ _ _ h
    · exact pathInv_moveTo _ _ _ h
  · exact h

theorem pathInv_lineTo (p : Path) (x y : FP) (h : PathInv p) : PathInv (p.lineTo x y) := by
  obtain ⟨h1, h2, _⟩ := pathInv_inject p h
  have hg := inv_growForVerb p.injectMoveToIfNeeded.ref .line [⟨x, y⟩] none h1 h2 rfl rfl
  exact ⟨hg.1, hg.2, wfb_of_dirty _ rfl⟩

theorem pathInv_quadTo (p : Path) (x1 y1 x2 y2 : FP) (h : PathInv p) :
    PathInv (p.quadTo x1 y1 x2 y2) := by
  obtain ⟨h1, h2, _⟩ := pathInv_inject p h
  have hg := inv_growForVerb p.injectMoveToIfNeeded.ref .quad [⟨x1, y1⟩, ⟨x2, y2⟩]
    none h1 h2 rfl rfl
  exact ⟨hg.1, hg.2, wfb_of_dirty _ rfl⟩

theorem pathInv_conicTo (p : Path) (x1 y1 x2 y2 w : FP) (h : PathInv p) :
    PathInv (p.conicTo x1 y1 x2 y2 w) := by
  unfold Path.conicTo
  split
  · exact pathInv_lineTo _ _ _ h
  · split
    · exact pathInv_lineTo _ _ _ (pathInv_lineTo _ _ _ h)
    · split
      · exact pathInv_quadTo _ _ _ _ _ h
      · obtain ⟨h1, h2, _⟩ := pathInv_inject p h
        have hg := inv_growForVerb p.injectMoveToIfNeeded.ref .conic
          [⟨x1, y1⟩, ⟨x2, y2⟩] (some w) h1 h2 rfl rfl
        exact ⟨hg.1, hg.2, wfb_of_dirty _ rfl⟩

theorem pathInv_cubicTo (p : Path) (x1 y1 x2 y2 x3 y3 : FP) (h : PathInv p) :
    PathInv (p.cubicTo x1 y1 x2 y2 x3 y3) := by
  obtain ⟨h1, h2, _⟩ := pathInv_inject p h
  have hg := inv_growForVerb p.injectMoveToIfNeeded.ref .cubic
    [⟨x1, y1⟩, ⟨x2, y2⟩, ⟨x3, y3⟩] none h1 h2 rfl rfl
  exact ⟨hg.1, hg.2, wfb_of_dirty _ rfl⟩

theorem pathInv_moveToPt (p : Path) (q : FPoint) (h : PathInv p) :
    PathInv (p.moveToPt q) := pathInv_moveTo p q.x q.y h

theorem pathInv_lineToPt (p : Path) (q : FPoint) (h : PathInv p) :
    PathInv (p.lineToPt q) := pathInv_lineTo p q.x q.y h

theorem pathInv_quadToPt (p : Path) (a b : FPoint) (h : PathInv p) :
    PathInv (p.quadToPt a b) := pathInv_quadTo p a.x a.y b.x b.y h

theorem pathInv_conicToPt (p : Path) (a b : FPoint) (w : FP) (h : PathInv p) :
    PathInv (p.conicToPt a b w) := pathInv_conicTo p a.x a.y b.x b.y w h

theorem pathInv_cubicToPt (p : Path) (a b c : FPoint) (h : PathInv p) :
    PathInv (p.cubicToPt a b c) := pathInv_cubicTo p a.x a.y b.x b.y c.x c.y h

theorem pathInv_close (p : Path) (h : PathInv p) : PathInv p.close := by
  have hgrow : PathInv { p with ref := p.ref.growForVerb .close [] none } := by
    obtain ⟨h1, h2, _⟩ := h
    have hg := inv_growForVerb p.ref .close [] none h1 h2 rfl rfl
    exact ⟨hg.1, hg.2, wfb_of_dirty _ rfl⟩
  simp only [Path.close]
  split
  · split
    · exact h
    · exact hgrow
  · exact h

theorem pathInv_incReserve (p : Path) (n : ℕ) (h : PathInv p) : PathInv (p.incReserve n) := by
  unfold Path.incReserve Path.markDirtyByEditor
  split
  · exact ⟨h.1, h.2.1, wfb_of_dirty _ rfl⟩
  · exact h

theorem pathInv_setIsOvalEd (p : Path) (f c : Bool) (si : ℕ) (h : PathInv p) :
    PathInv (p.setIsOvalEd f c si) :=
  ⟨h.1, h.2.1, wfb_of_dirty _ rfl⟩

theorem pathInv_setIsRRectEd (p : Path) (f c : Bool) (si : ℕ) (h : PathInv p) :
    PathInv (p.setIsRRectEd f c si) :=
  ⟨h.1, h.2.1, wfb_of_dirty _ rfl⟩

theorem empty_verbs_pts (p : Path) (h1 : verbAdvanceSum p.ref.verbs = p.ref.pts.length)
    (h : p.isEmpty = true) : p.ref.pts = [] := by
  have hlen : p.ref.verbs.length = 0 := by simpa [Path.isEmpty] using h
  rw [List.length_eq_zero] at hlen
  rw [hlen] at h1
  simp [verbAdvanceSum] at h1
  exact List.length_eq_zero.mp h1.symm

theorem allPointsFinite_append (xs ys : List FPoint) :
    allPointsFinite (xs ++ ys) = (allPointsFinite xs && allPointsFinite ys) := by
  simp [allPointsFinite, List.all_append]

theorem allPointsFinite_getD (pts : List FPoint) (i : ℕ)
    (h : allPointsFinite pts = true) : (pts.getD i FPoint.zero).isFinite = true := by
  by_cases hi : i < pts.length
  · rw [List.getD_eq_getElem pts FPoint.zero hi]
    exact List.all_eq_true.mp h _ (List.getElem_mem hi)
  · rw [List.getD_eq_default pts FPoint.zero (Nat.le_of_not_lt hi)]
    rfl

theorem ptsFin_moveToPt (p : Path) (q : FPoint)
    (hp : allPointsFinite p.ref.pts = true) (hq : q.isFinite = true) :
    allPointsFinite (p.moveToPt q).ref.pts = true := by
  show allPointsFinite (p.ref.pts ++ [⟨q.x, q.y⟩]) = true
  rw [allPointsFinite_append, hp]
  simpa [allPointsFinite, FPoint.isFinite] using hq

theorem ptsFin_inject (p : Path) (hp : allPointsFinite p.ref.pts = true) :
    allPointsFinite p.injectMoveToIfNeeded.ref.pts = true := by
  unfold Path.injectMoveToIfNeeded
  split
  · split
    · exact ptsFin_moveToPt p ⟨.fin 0, .fin 0⟩ hp rfl
    · exact ptsFin_moveToPt p _ hp
        (allPointsFinite_getD p.ref.pts (-p.lastMoveToIndex - 1).toNat hp)
  · exact hp

theorem ptsFin_lineToPt (p : Path) (q : FPoint)
    (hp : allPointsFinite p.ref.pts = true) (hq : q.isFinite = true) :
    allPointsFinite (p.lineToPt q).ref.pts = true := by
  show allPointsFinite (p.injectMoveToIfNeeded.ref.pts ++ [⟨q.x, q.y⟩]) = true
  rw [allPointsFinite_append, ptsFin_inject p hp]
  simpa [allPointsFinite, FPoint.isFinite] using hq

theorem ptsFin_quadToPt (p : Path) (a b : FPoint)
    (hp : allPointsFinite p.ref.pts = true) (ha : a.isFinite = true)
    (hb : b.isFinite = true) :
    allPointsFinite (p.quadToPt a b).ref.pts = true := by
  show allPointsFinite
    (p.injectMoveToIfNeeded.ref.pts ++ [⟨a.x, a.y⟩, ⟨b.x, b.y⟩]) = true
  rw [allPointsFinite_append, ptsFin_inject p hp]
  simp [allPointsFinite,
    show (⟨a.x, a.y⟩ : FPoint) = a from rfl,
    show (⟨b.x, b.y⟩ : FPoint) = b from rfl, ha, hb]

theorem ptsFin_conicToPt (p : Path) (a b : FPoint) (w : FP)
    (hp : allPointsFinite p.ref.pts = true) (ha : a.isFinite = true)
    (hb : b.isFinite = true) :
    allPointsFinite (p.conicToPt a b w).ref.pts = true := by
  show allPointsFinite (p.conicTo a.x a.y b.x b.y w).ref.pts = true
  unfold Path.conicTo
  split
  · exact ptsFin_lineToPt p b hp hb
  · split
    · exact ptsFin_lineToPt (p.lineToPt a) b (ptsFin_lineToPt p a hp ha) hb
    · split
      · exact ptsFin_quadToPt p a b hp ha hb
      · show allPointsFinite
          (p.injectMoveToIfNeeded.ref.pts ++ [⟨a.x, a.y⟩, ⟨b.x, b.y⟩]) = true
        rw [allPointsFinite_append, ptsFin_inject p hp]
        simp [allPointsFinite,
          show (⟨a.x, a.y⟩ : FPoint) = a from rfl,
          show (⟨b.x, b.y⟩ : FPoint) = b from rfl, ha, hb]

theorem ptsFin_cubicToPt (p : Path) (a b c : FPoint)
    (hp : allPointsFinite p.ref.pts = true) (ha : a.isFinite = true)
    (hb : b.isFinite = true) (hc : c.isFinite = true) :
    allPointsFinite (p.cubicToPt a b c).ref.pts = true := by
  show allPointsFinite
    (p.injectMoveToIfNeeded.ref.pts ++ [⟨a.x, a.y⟩, ⟨b.x, b.y⟩, ⟨c.x, c.y⟩]) = true
  rw [allPointsFinite_append, ptsFin_inject p hp]
  simp [allPointsFinite,
    show (⟨a.x, a.y⟩ : FPoint) = a from rfl,
    show (⟨b.x, b.y⟩ : FPoint) = b from rfl,
    show (⟨c.x, c.y⟩ : FPoint) = c from rfl, ha, hb, hc]

theorem ptsFin_close (p : Path) (hp : allPointsFinite p.ref.pts = true) :
    allPointsFinite p.close.ref.pts = true := by
  simp only [Path.close]
  split
  · split
    · exact hp
    · show allPointsFinite (p.ref.pts ++ []) = true
      rw [allPointsFinite_append, hp]
      rfl
  · exact hp

theorem ptsFin_incReserve (p : Path) (n : ℕ) (hp : allPointsFinite p.ref.pts = true) :
    allPointsFinite (p.incReserve n).ref.pts = true := by
  unfold Path.incReserve Path.markDirtyByEditor
  split
  · exact hp
  · exact hp

theorem ptsFin_setIsOvalEd (p : Path) (f c : Bool) (si : ℕ)
    (hp : allPointsFinite p.ref.pts = true) :
    allPointsFinite (p.setIsOvalEd f c si).ref.pts = true := hp

theorem ptsFin_setIsRRectEd (p : Path) (f c : Bool) (si : ℕ)
    (hp : allPointsFinite p.ref.pts = true) :
    allPointsFinite (p.setIsRRectEd f c si).ref.pts = true := hp

theorem apbu_wfb (p₀ pMid : Path) (r : FRect)
    (h0 : PathInv p₀) (hMid : WFB pMid)
    (hfin : r.isFinite = true → allPointsFinite p₀.ref.pts = true →
            allPointsFinite pMid.ref.pts = true) :
    WFB (apbuEnd (apbuBegin p₀ r) pMid) := by
  have hbase :
      (p₀.isEmpty || (!p₀.ref.boundsIsDirty && p₀.ref.isFiniteFlag)) = true →
      ((if (!p₀.ref.boundsIsDirty && p₀.ref.isFiniteFlag) && !p₀.isEmpty
          then joinNoEmptyChecks r.sorted p₀.ref.bounds else r.sorted)).isFinite = true →
      allPointsFinite pMid.ref.pts = true := by
    intro hcond hrect
    by_cases hb : ((!p₀.ref.boundsIsDirty && p₀.ref.isFiniteFlag) && !p₀.isEmpty) = true
    · rw [if_pos hb] at hrect
      have hb' := hb
      simp only [Bool.and_eq_true, Bool.not_eq_true'] at hb'
      have hwfb := h0.2.2 hb'.1.1 hb'.1.2
      exact hfin (join_sorted_finite r p₀.ref.bounds hrect) hwfb.1
    · rw [if_neg hb] at hrect
      have hrfin : r.isFinite = true := by
        rw [← sorted_isFinite]
        exact hrect
      by_cases hv : (!p₀.ref.boundsIsDirty && p₀.ref.isFiniteFlag) = true
      · have hv' := hv
        simp only [Bool.and_eq_true, Bool.not_eq_true'] at hv'
        exact hfin hrfin (h0.2.2 hv'.1 hv'.2).1
      · have hwe : p₀.isEmpty = true := by
          have hcd := hcond
          simp only [Bool.or_eq_true] at hcd
          rcases hcd with h | h
          · exact h
          · exact absurd h hv
        have hnil := empty_verbs_pts p₀ h0.1 hwe
        exact hfin hrfin (by simp [allPointsFinite, hnil])
  unfold apbuEnd
  split
  · rename_i hc
    have hc' : ((p₀.isEmpty || (!p₀.ref.boundsIsDirty && p₀.ref.isFiniteFlag)) &&
        (if (!p₀.ref.boundsIsDirty && p₀.ref.isFiniteFlag) && !p₀.isEmpty
          then joinNoEmptyChecks r.sorted p₀.ref.bounds else r.sorted).isFinite) = true := hc
    cases hA : (p₀.isEmpty || (!p₀.ref.boundsIsDirty && p₀.ref.isFiniteFlag)) with
    | false =>
      rw [hA, Bool.false_and] at hc'
      cases hc'
    | true =>
      rw [hA, Bool.true_and] at hc'
      intro _ _
      exact ⟨hbase hA hc', hc'⟩
  · exact hMid

theorem frect_finite_parts (r : FRect) (hr : r.isFinite = true) :
    r.left.isFinite = true ∧ r.top.isFinite = true ∧
    r.right.isFinite = true ∧ r.bottom.isFinite = true := by
  simp only [FRect.isFinite, Bool.and_eq_true] at hr
  exact ⟨hr.1.1.1, hr.1.1.2, hr.1.2, hr.2⟩

theorem rectCorner_finite (r : FRect) (n : ℕ) (hr : r.isFinite = true) :
    (rectCorner r n).isFinite = true := by
  obtain ⟨h1, h2, h3, h4⟩ := frect_finite_parts r hr
  rcases n with _ | _ | _ | n <;> simp [rectCorner, FPoint.isFinite, h1, h2, h3, h4]

theorem rectIterPoint_finite (r : FRect) (d : Dir) (si k : ℕ) (hr : r.isFinite = true) :
    (rectIterPoint r d si k).isFinite = true := by
  cases d <;> exact rectCorner_finite r _ hr

theorem ovalPoint_finite (r : FRect) (n : ℕ) (hr : r.isFinite = true) :
    (ovalPoint r n).isFinite = true := by
  obtain ⟨h1, h2, h3, h4⟩ := frect_finite_parts r hr
  rcases n with _ | _ | _ | n <;>
    simp [ovalPoint, FPoint.isFinite, fpAve_finite, h1, h2, h3, h4]

theorem ovalIterPoint_finite (r : FRect) (d : Dir) (si k : ℕ) (hr : r.isFinite = true) :
    (ovalIterPoint r d si k).isFinite = true := by
  cases d <;> exact ovalPoint_finite r _ hr

theorem rrectPoint_finite (rr : RRect) (n : ℕ) (hWF : rr.WF = true) :
    (rrectPoint rr n).isFinite = true := by
  simp only [RRect.WF, Bool.and_eq_true] at hWF
  obtain ⟨⟨⟨⟨hr, hUL⟩, hUR⟩, hLR⟩, hLL⟩ := hWF
  obtain ⟨h1, h2, h3, h4⟩ := frect_finite_parts rr.rect hr
  simp only [FPoint.isFinite, Bool.and_eq_true] at hUL hUR hLR hLL
  rcases n with _ | _ | _ | _ | _ | _ | _ | n <;>
    simp [rrectPoint, FPoint.isFinite, fpAdd_finite, fpSub_finite,
      h1, h2, h3, h4, hUL.1, hUL.2, hUR.1, hUR.2, hLR.1, hLR.2, hLL.1, hLL.2]

theorem rrectIterPoint_finite (rr : RRect) (d : Dir) (si k : ℕ) (hWF : rr.WF = true) :
    (rrectIterPoint rr d si k).isFinite = true := by
  cases d <;> exact rrectPoint_finite rr _ hWF

theorem pathInv_apbu (p₀ q : Path) (r : FRect)
    (h0 : PathInv p₀) (hq : PathInv q)
    (hfin : r.isFinite = true → allPointsFinite p₀.ref.pts = true →
            allPointsFinite q.ref.pts = true) :
    PathInv (apbuEnd (apbuBegin p₀ r) q) := by
  refine ⟨?_, ?_, apbu_wfb p₀ q r h0 hq.2.2 hfin⟩
  · unfold apbuEnd Path.setBounds
    split
    · exact hq.1
    · exact hq.1
  · unfold apbuEnd Path.setBounds
    split
    · exact hq.2.1
    · exact hq.2.1

theorem pathInv_addRect (p : Path) (r : FRect) (d : Dir) (si : ℕ) (h : PathInv p) :
    PathInv (p.addRect r d si) := by
  unfold Path.addRect
  apply pathInv_apbu p _ r h
  · exact pathInv_close _ (pathInv_lineToPt _ _ (pathInv_lineToPt _ _
      (pathInv_lineToPt _ _ (pathInv_moveToPt _ _ (pathInv_incReserve p 5 h)))))
  · intro hr hp0
    have h0 := ptsFin_incReserve p 5 hp0
    have h1 := ptsFin_moveToPt _ _ h0 (rectIterPoint_finite r d si 0 hr)
    have h2 := ptsFin_lineToPt _ _ h1 (rectIterPoint_finite r d si 1 hr)
    have h3 := ptsFin_lineToPt _ _ h2 (rectIterPoint_finite r d si 2 hr)
    have h4 := ptsFin_lineToPt _ _ h3 (rectIterPoint_finite r d si 3 hr)
    exact ptsFin_close _ h4

theorem root2Over2_finite : root2Over2.isFinite = true := rfl

theorem pathInv_addOval (p : Path) (r : FRect) (d : Dir) (si : ℕ) (h : PathInv p) :
    PathInv (p.addOval r d si) := by
  unfold Path.addOval
  apply pathInv_apbu p _ r h
  · exact pathInv_setIsOvalEd _ _ _ _ (pathInv_close _
      (pathInv_conicToPt _ _ _ _ (pathInv_conicToPt _ _ _ _
        (pathInv_conicToPt _ _ _ _ (pathInv_conicToPt _ _ _ _
          (pathInv_moveToPt _ _ (pathInv_incReserve p 6 h)))))))
  · intro hr hp0
    have h0 := ptsFin_incReserve p 6 hp0
    have h1 := ptsFin_moveToPt _ _ h0 (ovalIterPoint_finite r d si 0 hr)
    have h2 := ptsFin_conicToPt _ _ _ root2Over2 h1
      (rectIterPoint_finite r d (si + if d = .cw then 0 else 1) 1 hr)
      (ovalIterPoint_finite r d si 1 hr)
    have h3 := ptsFin_conicToPt _ _ _ root2Over2 h2
      (rectIterPoint_finite r d (si + if d = .cw then 0 else 1) 2 hr)
      (ovalIterPoint_finite r d si 2 hr)
    have h4 := ptsFin_conicToPt _ _ _ root2Over2 h3
      (rectIterPoint_finite r d (si + if d = .cw then 0 else 1) 3 hr)
      (ovalIterPoint_finite r d si 3 hr)
    have h5 := ptsFin_conicToPt _ _ _ root2Over2 h4
      (rectIterPoint_finite r d (si + if d = .cw then 0 else 1) 4 hr)
      (ovalIterPoint_finite r d si 4 hr)
    exact ptsFin_setIsOvalEd _ _ _ _ (ptsFin_close _ h5)

set_option maxHeartbeats 8000000 in
theorem pathInv_addRRect (p : Path) (rr : RRect) (d : Dir) (si : ℕ)
    (hWF : rr.WF = true) (h : PathInv p) : PathInv (p.addRRect rr d si) := by
  have hrfin : ∀ k, (rrectIterPoint rr d si k).isFinite = true :=
    fun k => rrectIterPoint_finite rr d si k hWF
  unfold Path.addRRect
  split
  · exact pathInv_addRect p rr.rect d _ h
  · split
    · exact pathInv_addOval p rr.rect d _ h
    · dsimp only
      by_cases hsw : (decide (si % 2 = 1) == decide (d = Dir.cw)) = true
      · rw [if_pos hsw, if_pos hsw]
        apply pathInv_apbu p _ rr.rect h
        · exact pathInv_setIsRRectEd _ _ _ _ (pathInv_close _ (pathInv_conicToPt _ _ _ _ (pathInv_lineToPt _ _ (pathInv_conicToPt _ _ _ _ (pathInv_lineToPt _ _ (pathInv_conicToPt _ _ _ _ (pathInv_lineToPt _ _ (pathInv_conicToPt _ _ _ _ (pathInv_moveToPt _ _ (pathInv_incReserve p 9 h))))))))))
        · intro hr hp0
          exact ptsFin_setIsRRectEd _ _ _ _ (ptsFin_close _ (ptsFin_conicToPt _ _ _ _ (ptsFin_lineToPt _ _ (ptsFin_conicToPt _ _ _ _ (ptsFin_lineToPt _ _ (ptsFin_conicToPt _ _ _ _ (ptsFin_lineToPt _ _ (ptsFin_conicToPt _ _ _ _ (ptsFin_moveToPt _ _ (ptsFin_incReserve p 9 hp0) (hrfin 0)) (rectIterPoint_finite rr.rect d _ 1 hr) (hrfin 1)) (hrfin 2)) (rectIterPoint_finite rr.rect d _ 2 hr) (hrfin 3)) (hrfin 4)) (rectIterPoint_finite rr.rect d _ 3 hr) (hrfin 5)) (hrfin 6)) (rectIterPoint_finite rr.rect d _ 4 hr) (hrfin 7)))
      · rw [if_neg hsw, if_neg hsw]
        apply pathInv_apbu p _ rr.rect h
        · exact pathInv_setIsRRectEd _ _ _ _ (pathInv_close _ (pathInv_conicToPt _ _ _ _ (pathInv_lineToPt _ _ (pathInv_conicToPt _ _ _ _ (pathInv_lineToPt _ _ (pathInv_conicToPt _ _ _ _ (pathInv_lineToPt _ _ (pathInv_conicToPt _ _ _ _ (pathInv_lineToPt _ _ (pathInv_moveToPt _ _ (pathInv_incReserve p 10 h)))))))))))
        · intro hr hp0
          exact ptsFin_setIsRRectEd _ _ _ _ (ptsFin_close _ (ptsFin_conicToPt _ _ _ _ (ptsFin_lineToPt _ _ (ptsFin_conicToPt _ _ _ _ (ptsFin_lineToPt _ _ (ptsFin_conicToPt _ _ _ _ (ptsFin_lineToPt _ _ (ptsFin_conicToPt _ _ _ _ (ptsFin_lineToPt _ _ (ptsFin_moveToPt _ _ (ptsFin_incReserve p 10 hp0) (hrfin 0)) (hrfin 1)) (rectIterPoint_finite rr.rect d _ 1 hr) (hrfin 2)) (hrfin 3)) (rectIterPoint_finite rr.rect d _ 2 hr) (hrfin 4)) (hrfin 5)) (rectIterPoint_finite rr.rect d _ 3 hr) (hrfin 6)) (hrfin 7)) (rectIterPoint_finite rr.rect d _ 4 hr) (hrfin 8)))

theorem pathInv_empty : PathInv Path.empty := by
  refine ⟨rfl, rfl, ?_⟩
  intro _ _
  exact ⟨rfl, rfl⟩

theorem inv_growForRepeatedLine (r : PathRef) (newPts : List FPoint)
    (h1 : verbAdvanceSum r.verbs = r.pts.length)
    (h2 : r.verbs.count Verb.conic = r.weights.length) :
    verbAdvanceSum (r.growForRepeatedLine newPts).verbs =
      (r.growForRepeatedLine newPts).pts.length ∧
    (r.growForRepeatedLine newPts).verbs.count Verb.conic =
      (r.growForRepeatedLine newPts).weights.length := by
  constructor
  · show verbAdvanceSum (r.verbs ++ List.replicate newPts.length .line) =
      (r.pts ++ newPts).length
    rw [verbAdvanceSum_append, List.length_append, h1]
    simp [verbAdvanceSum, claimAdvance]
  · show (r.verbs ++ List.replicate newPts.length Verb.line).count Verb.conic =
      r.weights.length
    rw [List.count_append, h2]
    simp [List.count_replicate]

theorem pathInv_addPoly (p : Path) (ptsL : List FPoint) (closed : Bool) (h : PathInv p) :
    PathInv (p.addPoly ptsL closed) := by
  unfold Path.addPoly
  cases ptsL with
  | nil => exact h
  | cons p0 rest =>
    have hm := inv_growForVerb p.ref .move [p0] none h.1 h.2.1 rfl rfl
    have hr := inv_growForRepeatedLine (p.ref.growForVerb .move [p0] none) rest hm.1 hm.2
    dsimp only
    by_cases hre : rest.isEmpty = true
    · rw [if_pos hre]
      split
      · have hcl := inv_growForVerb (p.ref.growForVerb .move [p0] none) .close [] none
          hm.1 hm.2 rfl rfl
        exact ⟨hcl.1, hcl.2, wfb_of_dirty _ rfl⟩
      · exact ⟨hm.1, hm.2, wfb_of_dirty _ rfl⟩
    · rw [if_neg hre]
      split
      · have hcl := inv_growForVerb
          ((p.ref.growForVerb .move [p0] none).growForRepeatedLine rest) .close [] none
          hr.1 hr.2 rfl rfl
        exact ⟨hcl.1, hcl.2, wfb_of_dirty _ rfl⟩
      · exact ⟨hr.1, hr.2, wfb_of_dirty _ rfl⟩

theorem walkStep_inv (m : Matrix) (mode : AddPathMode) (acc : Path × Bool) (e : IterEvent)
    (h : PathInv acc.1) : PathInv (addPathWalkStep m mode acc e).1 := by
  unfold addPathWalkStep
  cases e with
  | move p0 =>
    dsimp only
    split
    · split
      · exact pathInv_lineToPt _ _ (pathInv_inject _ h)
      · exact pathInv_inject _ h
    · exact pathInv_moveToPt _ _ h
  | line p0 p1 => exact pathInv_lineToPt _ _ h
  | quad p0 p1 p2 => exact pathInv_quadToPt _ _ _ h
  | conic p0 p1 p2 w => exact pathInv_conicToPt _ _ _ _ h
  | cubic p0 p1 p2 p3 => exact pathInv_cubicToPt _ _ _ _ h
  | close => exact pathInv_close _ h

theorem foldl_walk_inv (m : Matrix) (mode : AddPathMode) (evs : List IterEvent) :
    ∀ acc : Path × Bool, PathInv acc.1 →
      PathInv ((evs.foldl (addPathWalkStep m mode) acc)).1 := by
  induction evs with
  | nil => intro acc h; exact h
  | cons e rest ih =>
    intro acc h
    rw [List.foldl_cons]
    exact ih _ (walkStep_inv m mode acc e h)

theorem pathInv_addPathM (p src : Path) (m : Matrix) (mode : AddPathMode)
    (h : PathInv p) (hsrc : PathInv src) : PathInv (p.addPathM src m mode) := by
  unfold Path.addPathM
  split
  · exact h
  · split
    · have hg1 : verbAdvanceSum (p.ref.verbs ++ src.ref.verbs) =
          (p.ref.pts ++ src.ref.pts.map m.mapPoint).length := by
        rw [verbAdvanceSum_append, List.length_append, h.1, hsrc.1, List.length_map]
      have hg2 : (p.ref.verbs ++ src.ref.verbs).count Verb.conic =
          (p.ref.weights ++ src.ref.weights).length := by
        rw [List.count_append, List.length_append, h.2.1, hsrc.2.1]
      dsimp only
      split
      · exact ⟨hg1, hg2, wfb_of_dirty _ rfl⟩
      · exact ⟨hg1, hg2, wfb_of_dirty _ rfl⟩
    · exact foldl_walk_inv m mode src.iterateEvents (p, true) h

theorem revAddLoop_inv (src : PathRef) (vs : List Verb) :
    ∀ (p : Path) (c wc : ℕ) (nm nc : Bool), PathInv p →
      PathInv (revAddLoop src vs p c wc nm nc) := by
  induction vs with
  | nil => intro p c wc nm nc h; exact h
  | cons v rest ih =>
    intro p c wc nm nc h
    have hpc : PathInv
        (if nm then (p.moveToPt (src.pts.getD (c - 1) FPoint.zero), c - 1) else (p, c)).1 := by
      cases nm with
      | true => exact pathInv_moveToPt _ _ h
      | false => exact h
    cases v with
    | move =>
      exact ih _ _ _ _ _ (by
        cases nc with
        | true => exact pathInv_close _ hpc
        | false => exact hpc)
    | line => exact ih _ _ _ _ _ (pathInv_lineToPt _ _ hpc)
    | quad => exact ih _ _ _ _ _ (pathInv_quadToPt _ _ _ hpc)
    | conic => exact ih _ _ _ _ _ (pathInv_conicToPt _ _ _ _ hpc)
    | cubic => exact ih _ _ _ _ _ (pathInv_cubicToPt _ _ _ _ hpc)
    | close => exact ih _ _ _ _ _ hpc

theorem pathInv_reverseAddPath (p src : Path) (h : PathInv p) :
    PathInv (p.reverseAddPath src) := by
  unfold Path.reverseAddPath
  exact revAddLoop_inv src.ref _ p _ _ _ _ h

theorem subdivide_inv (n : ℕ) : ∀ (p : Path) (c : FPoint × FPoint × FPoint × FPoint),
    PathInv p → PathInv (subdivideCubicTo p c n) := by
  induction n with
  | zero => intro p c h; exact pathInv_cubicToPt _ _ _ _ h
  | succ n ih => intro p c h; exact ih _ _ (ih _ _ h)

theorem transformStep_inv (tw : FPoint → FPoint → FPoint → FP → FP) (p : Path)
    (e : IterEvent) (h : PathInv p) : PathInv (transformWalkStep tw p e) := by
  unfold transformWalkStep
  cases e with
  | move p0 => exact pathInv_moveToPt _ _ h
  | line p0 p1 => exact pathInv_lineToPt _ _ h
  | quad p0 p1 p2 => exact pathInv_conicToPt _ _ _ _ h
  | conic p0 p1 p2 w => exact pathInv_conicToPt _ _ _ _ h
  | cubic p0 p1 p2 p3 => exact subdivide_inv 2 p _ h
  | close => exact pathInv_close _ h

theorem foldl_transform_inv (tw : FPoint → FPoint → FPoint → FP → FP)
    (evs : List IterEvent) :
    ∀ p : Path, PathInv p → PathInv (evs.foldl (transformWalkStep tw) p) := by
  induction evs with
  | nil => intro p h; exact h
  | cons e rest ih =>
    intro p h
    rw [List.foldl_cons]
    exact ih _ (transformStep_inv tw p e h)

theorem pathInv_rewind (p : Path) : PathInv p.rewind := by
  refine ⟨rfl, rfl, wfb_of_dirty _ rfl⟩

theorem rss_noPersp (m : Matrix) (h : m.rectStaysRect = true) :
    m.hasPerspective = false := by
  simp only [Matrix.rectStaysRect, Bool.and_eq_true, Bool.not_eq_true'] at h
  exact h.1

theorem mapAffine_finite (m : Matrix) (q : FPoint)
    (hsx : m.scaleX.isFinite = true) (hkx : m.skewX.isFinite = true)
    (htx : m.transX.isFinite = true) (hky : m.skewY.isFinite = true)
    (hsy : m.scaleY.isFinite = true) (hty : m.transY.isFinite = true)
    (hq : q.isFinite = true) :
    (m.mapPointAffine q).isFinite = true := by
  simp only [FPoint.isFinite, Bool.and_eq_true] at hq
  simp [Matrix.mapPointAffine, FPoint.isFinite, fpAdd_finite, fpMul_finite,
    hsx, hkx, htx, hky, hsy, hty, hq.1, hq.2]

theorem mapAffine_x_coeffs (m : Matrix) (q : FPoint)
    (hfin : (m.mapPointAffine q).x.isFinite = true) :
    m.scaleX.isFinite = true ∧ m.skewX.isFinite = true ∧
    m.transX.isFinite = true := by
  have hfin' : (((m.scaleX.mul q.x).add (m.skewX.mul q.y)).add m.transX).isFinite =
      true := hfin
  rw [fpAdd_finite, fpAdd_finite, fpMul_finite, fpMul_finite] at hfin'
  simp only [Bool.and_eq_true] at hfin'
  exact ⟨hfin'.1.1.1, hfin'.1.2.1, hfin'.2⟩

theorem mapAffine_y_coeffs (m : Matrix) (q : FPoint)
    (hfin : (m.mapPointAffine q).y.isFinite = true) :
    m.skewY.isFinite = true ∧ m.scaleY.isFinite = true ∧
    m.transY.isFinite = true := by
  have hfin' : (((m.skewY.mul q.x).add (m.scaleY.mul q.y)).add m.transY).isFinite =
      true := hfin
  rw [fpAdd_finite, fpAdd_finite, fpMul_finite, fpMul_finite] at hfin'
  simp only [Bool.and_eq_true] at hfin'
  exact ⟨hfin'.1.1.1, hfin'.1.2.1, hfin'.2⟩

theorem pathInv_ctc (p : Path) (m : Matrix) (h : PathInv p) :
    PathInv { p with ref := createTransformedCopy p.ref m } := by
  unfold createTransformedCopy
  split
  · exact h
  · dsimp only
    refine ⟨?_, ?_, ?_⟩
    · show verbAdvanceSum p.ref.verbs = (p.ref.pts.map m.mapPoint).length
      rw [List.length_map]
      exact h.1
    · exact h.2.1
    · intro hd hf
      by_cases hc : (!p.ref.boundsIsDirty && m.rectStaysRect &&
          decide (p.ref.pts.length > 1)) = true
      · rw [if_pos hc] at hd hf ⊢
        by_cases hff : p.ref.isFiniteFlag = true
        · rw [if_pos hff] at hd hf ⊢
          by_cases hmb : (m.mapRectRS p.ref.bounds).isFinite = true
          · rw [if_pos hmb] at hd hf ⊢
            have hc' := hc
            simp only [Bool.and_eq_true, Bool.not_eq_true'] at hc'
            have hwfb := h.2.2 hc'.1.1 hff
            have hraw : (FRect.mk
                (m.mapPointAffine ⟨p.ref.bounds.left, p.ref.bounds.top⟩).x
                (m.mapPointAffine ⟨p.ref.bounds.left, p.ref.bounds.top⟩).y
                (m.mapPointAffine ⟨p.ref.bounds.right, p.ref.bounds.bottom⟩).x
                (m.mapPointAffine ⟨p.ref.bounds.right, p.ref.bounds.bottom⟩).y).isFinite =
                true := by
              have he : m.mapRectRS p.ref.bounds = (FRect.mk
                  (m.mapPointAffine ⟨p.ref.bounds.left, p.ref.bounds.top⟩).x
                  (m.mapPointAffine ⟨p.ref.bounds.left, p.ref.bounds.top⟩).y
                  (m.mapPointAffine ⟨p.ref.bounds.right, p.ref.bounds.bottom⟩).x
                  (m.mapPointAffine ⟨p.ref.bounds.right,
                    p.ref.bounds.bottom⟩).y).sorted := rfl
              rw [he, sorted_isFinite] at hmb
              exact hmb
            obtain ⟨hx0, hy0, hx1, hy1⟩ := frect_finite_parts _ hraw
            obtain ⟨hsx, hkx, htx⟩ := mapAffine_x_coeffs m _ hx0
            obtain ⟨hky, hsy, hty⟩ := mapAffine_y_coeffs m _ hy0
            refine ⟨?_, hmb⟩
            have hnp : m.hasPerspective = false := rss_noPersp m hc'.1.2
            simp only [allPointsFinite, List.all_map, List.all_eq_true]
            intro q hq
            have hqf : q.isFinite = true := List.all_eq_true.mp hwfb.1 q hq
            show (m.mapPoint q).isFinite = true
            unfold Matrix.mapPoint
            rw [hnp]
            simp only [Bool.false_eq_true, if_false]
            exact mapAffine_finite m q hsx hkx htx hky hsy hty hqf
          · rw [if_neg hmb] at hf
            simp at hf
        · rw [if_neg hff] at hf
          simp at hf
      · rw [if_neg hc] at hd
        simp at hd

theorem pathInv_transformedWith (p : Path) (tw : FPoint → FPoint → FPoint → FP → FP)
    (m : Matrix) (h : PathInv p) : PathInv (p.transformedWith tw m) := by
  unfold Path.transformedWith
  split
  · exact h
  · split
    · dsimp only
      have ht : PathInv ((p.iterEvents false).foldl (transformWalkStep tw)
          { Path.empty with fillType := p.fillType }) :=
        foldl_transform_inv tw _ _ pathInv_empty
      refine ⟨?_, ?_, wfb_of_dirty _ rfl⟩
      · show verbAdvanceSum ((p.iterEvents false).foldl (transformWalkStep tw)
            { Path.empty with fillType := p.fillType }).ref.verbs =
          (((p.iterEvents false).foldl (transformWalkStep tw)
            { Path.empty with fillType := p.fillType }).ref.pts.map m.mapPointFull).length
        rw [List.length_map]
        exact ht.1
      · exact ht.2.1
    · exact pathInv_ctc p m h

theorem reachable_pathInv : ∀ p : Path, Reachable p → PathInv p := by
  intro p h
  induction h with
  | empty => exact pathInv_empty
  | moveTo x y _ ih => exact pathInv_moveTo _ x y ih
  | lineTo x y _ ih => exact pathInv_lineTo _ x y ih
  | quadTo x1 y1 x2 y2 _ ih => exact pathInv_quadTo _ _ _ _ _ ih
  | conicTo x1 y1 x2 y2 w _ ih => exact pathInv_conicTo _ _ _ _ _ _ ih
  | cubicTo x1 y1 x2 y2 x3 y3 _ ih => exact pathInv_cubicTo _ _ _ _ _ _ _ ih
  | close _ ih => exact pathInv_close _ ih
  | addRect r d si _ ih => exact pathInv_addRect _ r d si ih
  | addOval r d si _ ih => exact pathInv_addOval _ r d si ih
  | addRRect rr d si hWF _ ih => exact pathInv_addRRect _ rr d si hWF ih
  | addPoly pts closed _ ih => exact pathInv_addPoly _ pts closed ih
  | addPath m mode _ _ ih ihsrc => exact pathInv_addPathM _ _ m mode ih ihsrc
  | reverseAddPath _ _ ih _ => exact pathInv_reverseAddPath _ _ ih
  | transform tw m _ ih => exact pathInv_transformedWith _ tw m ih
  | rewind _ _ => exact pathInv_rewind _
  | reset _ _ => exact pathInv_empty

/-- Claim C1: for every path value reachable through the public interface
(construction, verb appends, shape appends, addPath/reverseAddPath,
transform, rewind, reset), the sum over its verb stream of the per-verb point
advance {Move 1, Line 1, Quad 2, Conic 2, Cubic 3, Close 0} equals the length
of its point array, and the number of Conic verbs equals the length of its
conic-weight array. -/
theorem reachable_counts (p : Path) (h : Reachable p) :
    verbAdvanceSum p.ref.verbs = p.ref.pts.length ∧
    p.ref.verbs.count Verb.conic = p.ref.weights.length :=
  ⟨(reachable_pathInv p h).1, (reachable_pathInv p h).2.1⟩

/-- Witness for `reachable_counts` at `addOval (0,0,100,50) cw 1` applied to
the empty path. -/
theorem reachable_counts_witness :
    Reachable (Path.empty.addOval (FRect.mkQ 0 0 100 50) .cw 1) ∧
    verbAdvanceSum (Path.empty.addOval (FRect.mkQ 0 0 100 50) .cw 1).ref.verbs =
      (Path.empty.addOval (FRect.mkQ 0 0 100 50) .cw 1).ref.pts.length ∧
    (Path.empty.addOval (FRect.mkQ 0 0 100 50) .cw 1).ref.verbs.count Verb.conic =
      (Path.empty.addOval (FRect.mkQ 0 0 100 50) .cw 1).ref.weights.length := by
  have hr : Reachable (Path.empty.addOval (FRect.mkQ 0 0 100 50) .cw 1) :=
    Reachable.addOval _ _ _ Reachable.empty
  exact ⟨hr, (reachable_counts _ hr).1, (reachable_counts _ hr).2⟩

/-- Claim C3: every reachable path holding a non-finite (NaN or infinite)
coordinate reports `isFinite() = false` — whether the cached flag is clean
(by the bounds-coherence invariant) or the bounds are recomputed — and
consequently the stroke entry `SkPaint::getFillPath` resets its destination
and returns false, the path-effect entry (`SkPathEffect::filterPath`, used by
the corner-rounding effect) emits an empty path, and `SkPathPriv::Iterate`
yields no events. -/
theorem nonfinite_isFinite_false (p : Path) (applyRest : Path → Path × Bool)
    (onFilter : Path → Path) (h : Reachable p)
    (hnf : allPointsFinite p.ref.pts = false) :
    p.isFinite = false ∧ getFillPath applyRest p = (Path.empty, false) ∧
    effectFilterPath onFilter p = Path.empty ∧ p.iterateEvents = [] := by
  have hinv := reachable_pathInv p h
  have hfin : p.isFinite = false := by
    unfold Path.isFinite PathRef.isFinite PathRef.ensureBounds
    by_cases hd : p.ref.boundsIsDirty = true
    · rw [if_pos hd]
      have hne : p.ref.pts.isEmpty = false := by
        cases hpts : p.ref.pts with
        | nil =>
          rw [hpts] at hnf
          simp [allPointsFinite] at hnf
        | cons a l => rfl
      simp [hne, hnf]
    · rw [if_neg hd]
      cases hflag : p.ref.isFiniteFlag with
      | false => rfl
      | true =>
        have hd' : p.ref.boundsIsDirty = false := by
          cases hdd : p.ref.boundsIsDirty with
          | false => rfl
          | true => exact absurd hdd hd
        have hc := hinv.2.2 hd' hflag
        rw [hc.1] at hnf
        cases hnf
  refine ⟨hfin, ?_, ?_, ?_⟩
  · simp [getFillPath, hfin]
  · simp [effectFilterPath, hfin]
  · simp [Path.iterateEvents, hfin]

/-- Witness for `nonfinite_isFinite_false` at the reachable path
`lineTo(NaN, 0)` on the empty path. -/
theorem nonfinite_isFinite_false_witness :
    Reachable (Path.empty.lineTo .nan (.fin 0)) ∧
    allPointsFinite (Path.empty.lineTo .nan (.fin 0)).ref.pts = false ∧
    ((Path.empty.lineTo .nan (.fin 0)).isFinite = false ∧
      getFillPath (fun q => (q, true)) (Path.empty.lineTo .nan (.fin 0)) =
        (Path.empty, false) ∧
      effectFilterPath id (Path.empty.lineTo .nan (.fin 0)) = Path.empty ∧
      (Path.empty.lineTo .nan (.fin 0)).iterateEvents = []) := by
  have hr : Reachable (Path.empty.lineTo .nan (.fin 0)) :=
    Reachable.lineTo _ _ Reachable.empty
  exact ⟨hr, by decide,
    nonfinite_isFinite_false _ (fun q => (q, true)) id hr (by decide)⟩

theorem fpLe_asymm (a b : FP) (h : FP.le a b = true) : FP.lt b a = false := by
  cases a with
  | nan => cases b <;> simp [FP.le] at h
  | inf s =>
    cases b with
    | nan => simp [FP.le] at h
    | inf t => cases s <;> cases t <;> simp_all [FP.le, FP.lt]
    | fin q => cases s <;> simp_all [FP.le, FP.lt]
  | fin p =>
    cases b with
    | nan => simp [FP.le] at h
    | inf t => cases t <;> simp_all [FP.le, FP.lt]
    | fin q =>
      simp only [FP.le] at h
      simp only [FP.lt]
      rw [Bool.eq_false_iff]
      intro hc
      exact absurd ((qLt_iff _ _).mp hc) (not_lt.mpr ((qLe_iff _ _).mp h))

theorem sorted_of_isSorted (r : FRect) (h : r.isSorted = true) : r.sorted = r := by
  simp only [FRect.isSorted, Bool.and_eq_true] at h
  rw [sorted_components, fpLe_asymm _ _ h.1, fpLe_asymm _ _ h.2]
  rfl

theorem apbuEnd_verbs (st : ApbuState) (q : Path) :
    (apbuEnd st q).ref.verbs = q.ref.verbs := by
  unfold apbuEnd Path.setBounds
  split <;> rfl

theorem apbuEnd_weights (st : ApbuState) (q : Path) :
    (apbuEnd st q).ref.weights = q.ref.weights := by
  unfold apbuEnd Path.setBounds
  split <;> rfl

theorem apbuEnd_isOvalFlag (st : ApbuState) (q : Path) :
    (apbuEnd st q).ref.isOvalFlag = q.ref.isOvalFlag := by
  unfold apbuEnd Path.setBounds
  split <;> rfl

/-- Claim C7 (amended): for every rect `r`, direction and start index, a path
produced by calling `addOval(r, dir, start)` on an *empty* path consists of
exactly the 6 verbs Move, Conic, Conic, Conic, Conic, Close; all four conic
weights equal `PK_ScalarRoot2Over2 = 11863283/2^24`, which is within 1e-6 of
`√2/2`; the oval hint is set, and when `r` is sorted and finite the oval
query reports `out == r`. (On a non-empty path the prior verbs remain, so the
verb count exceeds 6 — see the counterexample.) -/
theorem addOval_empty_structure (r : FRect) (d : Dir) (si : ℕ) :
    (Path.empty.addOval r d si).ref.verbs =
      [.move, .conic, .conic, .conic, .conic, .close] ∧
    (Path.empty.addOval r d si).ref.weights =
      [root2Over2, root2Over2, root2Over2, root2Over2] ∧
    (Path.empty.addOval r d si).ref.isOvalFlag = true ∧
    (r.isSorted = true → r.isFinite = true →
      (Path.empty.addOval r d si).isOvalRect = some r) ∧
    (mkRat 11863283 16777216 : ℚ) = 11863283 / 16777216 ∧
    |((11863283 : ℝ) / 16777216) - Real.sqrt 2 / 2| < 1 / 1000000 := by
  refine ⟨?_, ?_, ?_, ?_, ?_, ?_⟩
  · unfold Path.addOval
    dsimp only
    rw [apbuEnd_verbs]
    rfl
  · unfold Path.addOval
    dsimp only
    rw [apbuEnd_weights]
    rfl
  · unfold Path.addOval
    dsimp only
    rw [apbuEnd_isOvalFlag]
    rfl
  · intro hs hf
    have hsort : r.sorted = r := sorted_of_isSorted r hs
    unfold Path.addOval
    dsimp only
    unfold apbuEnd
    split
    · rw [show (apbuBegin Path.empty r).rect = r.sorted from rfl, hsort]
      rfl
    · rename_i hcn
      exact absurd (show (((apbuBegin Path.empty r).wasEmpty ||
          (apbuBegin Path.empty r).hasValidBounds) &&
          (apbuBegin Path.empty r).rect.isFinite) = true from by
        show ((true || true) && r.sorted.isFinite) = true
        rw [hsort, hf]
        rfl) hcn
  · rw [Rat.mkRat_eq_div]
    norm_num
  · have hs2 : Real.sqrt 2 ^ 2 = 2 := Real.sq_sqrt (by norm_num)
    have hsp : (0 : ℝ) < Real.sqrt 2 := Real.sqrt_pos.mpr (by norm_num)
    rw [abs_sub_lt_iff]
    constructor <;>
      nlinarith [hs2, hsp, sq_nonneg (Real.sqrt 2 - 1414213 / 1000000)]

/-- Witness for `addOval_empty_structure` at the rect `(0,0,100,50)` (sorted
and finite), direction cw, start index 1. -/
theorem addOval_empty_structure_witness :
    (FRect.mkQ 0 0 100 50).isSorted = true ∧
    (FRect.mkQ 0 0 100 50).isFinite = true ∧
    (Path.empty.addOval (FRect.mkQ 0 0 100 50) .cw 1).ref.verbs =
      [.move, .conic, .conic, .conic, .conic, .close] ∧
    (Path.empty.addOval (FRect.mkQ 0 0 100 50) .cw 1).isOvalRect =
      some (FRect.mkQ 0 0 100 50) := by
  refine ⟨by decide, by decide,
    (addOval_empty_structure (FRect.mkQ 0 0 100 50) .cw 1).1, ?_⟩
  exact (addOval_empty_structure (FRect.mkQ 0 0 100 50) .cw 1).2.2.2.1
    (by decide) (by decide)

end PathKit
